import Mathlib

/-!
Verification of the go-elevation repository (package `elevation`).

Shallow embedding conventions used throughout this development:

* Go `int` values are modelled as `ℤ`; Go integer division and remainder
  truncate toward zero, so they are modelled with `Int.tdiv` and `Int.tmod`.
* `float32`/`float64` sample values are modelled as exact rationals `ℚ`,
  with `none : Option ℚ` standing for NaN.  Every concrete computation
  proved below uses only dyadic rationals on which the corresponding IEEE
  operations are exact, and NaN propagation through `+`/`*` is modelled by
  the `Option` arithmetic `nadd`/`nmul` below.
* Fallible Go functions returning `(T, error)` are modelled as
  `Except Err T`.
* External collaborators that are out of the repository's core (the
  `github.com/google/tiff` IFD parser, the LZW decompressor, the
  filesystem) are modelled as abstract function parameters of the
  corresponding environment structures.
-/

/-- Error values observed by the modelled code.  `notExist` stands for
`fs.ErrNotExist`, `unsupported` for `errors.ErrUnsupported`,
`wrongIFDCount` for the `found %d IFDs, expected 1` error, `badTileTables`
for `incorrect number of tile byte counts or offsets`, `shortRead` for
`errShortRead`; `ioError` and `parseFailure` stand for arbitrary errors
returned by the filesystem and by the TIFF parser. -/
inductive Err where
  | notExist
  | unsupported
  | wrongIFDCount (n : ℕ)
  | badTileTables
  | shortRead
  | ioError
  | parseFailure
  deriving DecidableEq, Repr

/-- A Coord is a coordinate (type `Coord` of elevation.go, fields X Y int). -/
structure Coord where
  X : ℤ
  Y : ℤ
  deriving DecidableEq, Repr

/-- A TileCoord is a tile coordinate (type `TileCoord` of elevation.go,
fields C (column) and R (row), both int). -/
structure TileCoord where
  C : ℤ
  R : ℤ
  deriving DecidableEq, Repr

/-- The no-data sentinel: the exact rational value of the float32 with bit
pattern `0xff7fffff` (`noData` in geotifftile.go), i.e.
-3.4028234663852886e+38 = -(2^128 - 2^104). -/
def noData : ℚ := -340282346638528859811704183484516925440

/-- Go's `int(x)` conversion from a float, i.e. truncation toward zero. -/
def ratTrunc (q : ℚ) : ℤ := if 0 ≤ q then ⌊q⌋ else ⌈q⌉

/-- NaN-propagating multiplication of a sample by a finite weight
(`none` is NaN). -/
def nmul (a : Option ℚ) (w : ℚ) : Option ℚ := a.map (fun x => x * w)

/-- NaN-propagating addition of two samples (`none` is NaN). -/
def nadd (a b : Option ℚ) : Option ℚ :=
  match a, b with
  | some x, some y => some (x + y)
  | _, _ => none

/-- The `Raster` interface of elevation.go: the data source of the
interpolator.  The batch method `Samples` of a raster is pointwise over the
coordinates (true of the test raster and, observably, of the decoder and
router), so the interface is modelled by its pointwise sample function
together with the scale; its batch method is `Raster.Samples` below. -/
structure Raster where
  sample : Coord → Option ℚ
  scaleX : ℤ
  scaleY : ℤ

/-- The batch `Samples` method of a `Raster`: one sample per coordinate. -/
def Raster.Samples (r : Raster) (coords : List Coord) : List (Option ℚ) :=
  coords.map r.sample

/-- The four corner lattice coordinates built by `InterpolateBilinear`
for one query coordinate: `x0 := scaleX * (int(x) / scaleX)` with Go
truncating conversion and truncating division, `x1 := x0 + scaleX`, and
symmetrically for y; corners in the order (x0,y0), (x1,y0), (x0,y1),
(x1,y1) used for `rasterCoords[4i..4i+3]`. -/
def bilinearCorners (scaleX scaleY : ℤ) (coord : ℚ × ℚ) : List Coord :=
  let x0 := scaleX * ((ratTrunc coord.1).tdiv scaleX)
  let y0 := scaleY * ((ratTrunc coord.2).tdiv scaleY)
  let x1 := x0 + scaleX
  let y1 := y0 + scaleY
  [⟨x0, y0⟩, ⟨x1, y0⟩, ⟨x0, y1⟩, ⟨x1, y1⟩]

/-- The weighted-sum step of `InterpolateBilinear` for query index `i`:
`dx := (x - scaleX*(int(x)/scaleX)) / scaleX`, `dy` symmetrically, and
result `samples[4i]*(1-dx)*(1-dy) + samples[4i+1]*dx*(1-dy) +
samples[4i+2]*(1-dx)*dy + samples[4i+3]*dx*dy`, with NaN propagation. -/
def bilinearCombine (scaleX scaleY : ℤ) (samples : List (Option ℚ))
    (i : ℕ) (coord : ℚ × ℚ) : Option ℚ :=
  let dx : ℚ := (coord.1 - ((scaleX * ((ratTrunc coord.1).tdiv scaleX) : ℤ) : ℚ)) / (scaleX : ℚ)
  let dy : ℚ := (coord.2 - ((scaleY * ((ratTrunc coord.2).tdiv scaleY) : ℤ) : ℚ)) / (scaleY : ℚ)
  nadd (nadd (nadd
    (nmul (nmul (samples.getD (4*i) none) (1-dx)) (1-dy))
    (nmul (nmul (samples.getD (4*i+1) none) dx) (1-dy)))
    (nmul (nmul (samples.getD (4*i+2) none) (1-dx)) dy))
    (nmul (nmul (samples.getD (4*i+3) none) dx) dy)

/-- Model of `InterpolateBilinear` (interpolate.go): build the flat list of
4 corner coordinates per query, fetch all samples in one batched
`raster.Samples` call, then combine each query's four samples with the
bilinear weights. -/
def InterpolateBilinear (raster : Raster) (coords : List (ℚ × ℚ)) : List (Option ℚ) :=
  let rasterCoords := (coords.map (bilinearCorners raster.scaleX raster.scaleY)).flatten
  let samples := raster.Samples rasterCoords
  coords.enum.map fun p => bilinearCombine raster.scaleX raster.scaleY samples p.1 p.2

/-- The per-query bilinear formula as the specification sentence states it,
except with Go's truncation toward zero in place of floor:
`x0 = scaleX * trunc(x)/scaleX` (truncating division), corners sampled
pointwise, and the weighted sum with weights `(1-dx)(1-dy)`, `dx(1-dy)`,
`(1-dx)dy`, `dx*dy`; a NaN corner makes the result NaN. -/
def bilinearTruncPoint (raster : Raster) (x y : ℚ) : Option ℚ :=
  let x0 : ℤ := raster.scaleX * ((ratTrunc x).tdiv raster.scaleX)
  let y0 : ℤ := raster.scaleY * ((ratTrunc y).tdiv raster.scaleY)
  let dx : ℚ := (x - (x0 : ℚ)) / (raster.scaleX : ℚ)
  let dy : ℚ := (y - (y0 : ℚ)) / (raster.scaleY : ℚ)
  match raster.sample ⟨x0, y0⟩, raster.sample ⟨x0 + raster.scaleX, y0⟩,
        raster.sample ⟨x0, y0 + raster.scaleY⟩,
        raster.sample ⟨x0 + raster.scaleX, y0 + raster.scaleY⟩ with
  | some s00, some s10, some s01, some s11 =>
      some (s00*(1-dx)*(1-dy) + s10*dx*(1-dy) + s01*(1-dx)*dy + s11*dx*dy)
  | _, _, _, _ => none

/-- The per-query bilinear formula exactly as the claim states it: the
cell origin is `x0 = scaleX * floor(x/scaleX)` (floor division), `x1 =
x0 + scaleX`, symmetrically for y, weights `(1-dx)(1-dy)`, `dx(1-dy)`,
`(1-dx)dy`, `dx*dy` with `dx = (x-x0)/scaleX`, `dy = (y-y0)/scaleY`, and
NaN corners propagate NaN. -/
def bilinearFloorPoint (raster : Raster) (x y : ℚ) : Option ℚ :=
  let x0 : ℤ := raster.scaleX * ⌊x / (raster.scaleX : ℚ)⌋
  let y0 : ℤ := raster.scaleY * ⌊y / (raster.scaleY : ℚ)⌋
  let dx : ℚ := (x - (x0 : ℚ)) / (raster.scaleX : ℚ)
  let dy : ℚ := (y - (y0 : ℚ)) / (raster.scaleY : ℚ)
  match raster.sample ⟨x0, y0⟩, raster.sample ⟨x0 + raster.scaleX, y0⟩,
        raster.sample ⟨x0, y0 + raster.scaleY⟩,
        raster.sample ⟨x0 + raster.scaleX, y0 + raster.scaleY⟩ with
  | some s00, some s10, some s01, some s11 =>
      some (s00*(1-dx)*(1-dy) + s10*dx*(1-dy) + s01*(1-dx)*dy + s11*dx*dy)
  | _, _, _, _ => none

/-- A concrete raster used to separate the floor-based and
truncation-based lattice cells: value 0 strictly west of x = 0, value 1
elsewhere, scale (10, 10). -/
def stepRaster : Raster :=
  { sample := fun c => some (if c.X < 0 then 0 else 1)
    scaleX := 10
    scaleY := 10 }

/-- The test grid of TestInterpolateBilinear (interpolate_test.go). -/
def testGrid : List (List ℚ) := [[0, 1, 2], [2, 3, 4], [4, 5, 6]]

/-- The test raster of TestInterpolateBilinear (`testRaster` with
`simpleRaster`'s data): scale (10, 10), and `Samples` returning
`samples[coord.Y/scaleY][coord.X/scaleX]` over `testGrid`. -/
def simpleRaster : Raster :=
  { sample := fun c =>
      some ((testGrid.getD ((c.Y.tdiv 10).toNat) []).getD ((c.X.tdiv 10).toNat) 0)
    scaleX := 10
    scaleY := 10 }

/-- Model of an open GeoTIFF file (`GeoTIFFTile` of geotifftile.go) at the
sampling level.  The geometry fields are the ones retained by
`NewGeoTIFFTile`; the `tiles` field abstracts `getTileSamplesCached`, which
observably is a fixed function of the file contents for a given open file:
`.error e` models a failed read/decompress, `.ok none` models a known-empty
tile (`nil` samples), and `.ok (some s)` models the decoded row-major
sample array.  The cache and empty-tile bookkeeping behind
`getTileSamplesCached` are modelled separately and statefully below
(`DecState` etc.) for the cache-level claims. -/
structure GeoTIFFTile where
  imageWidth : ℤ
  imageLength : ℤ
  tileWidth : ℤ
  tileLength : ℤ
  scaleX : ℤ
  scaleY : ℤ
  translateX : ℤ
  translateY : ℤ
  tiles : TileCoord → Except Err (Option (List ℚ))

/-- Model of `GeoTIFFTile.localCoord`: Go integer division truncates toward
zero, and the unary minus in the source binds to `(coord.Y - translateY)`
before dividing. -/
def GeoTIFFTile.localCoord (t : GeoTIFFTile) (coord : Coord) : Coord :=
  { X := (coord.X - t.translateX).tdiv t.scaleX
    Y := (-(coord.Y - t.translateY)).tdiv t.scaleY }

/-- Model of `GeoTIFFTile.localTileCoord`: bounds test against the image
rectangle, then truncating division by the tile dimensions. -/
def GeoTIFFTile.localTileCoord (f : GeoTIFFTile) (localCoord : Coord) : Option TileCoord :=
  if localCoord.X < 0 ∨ f.imageWidth ≤ localCoord.X ∨
      localCoord.Y < 0 ∨ f.imageLength ≤ localCoord.Y then
    none
  else
    some { C := localCoord.X.tdiv f.tileWidth, R := localCoord.Y.tdiv f.tileLength }

/-- Model of `GeoTIFFTile.tileSample`: `nil` tile samples (a known-empty
tile) yield NaN; otherwise index with Go `%` (truncated remainder, both
operands nonnegative on every reachable call) and map the no-data sentinel
to NaN.  Out-of-range indexing, which panics in Go, is modelled by the
default 0. -/
def GeoTIFFTile.tileSample (f : GeoTIFFTile) (tileSamples : Option (List ℚ))
    (localCoord : Coord) : Option ℚ :=
  match tileSamples with
  | none => none
  | some samples =>
    let sample := samples.getD
      (localCoord.X.tmod f.tileWidth + (localCoord.Y.tmod f.tileLength) * f.tileWidth).toNat 0
    if sample = noData then none else some sample

/-- Model of `GeoTIFFTile.Sample`: convert to a local coordinate, return
NaN when outside the image, otherwise fetch the tile and extract its
sample. -/
def GeoTIFFTile.Sample (f : GeoTIFFTile) (coord : Coord) : Except Err (Option ℚ) :=
  let localCoord := f.localCoord coord
  match f.localTileCoord localCoord with
  | none => .ok none
  | some localTileCoord =>
    match f.tiles localTileCoord with
    | .error e => .error e
    | .ok tileSamples => .ok (f.tileSample tileSamples localCoord)

/-- The claim's description of `Sample`, written as one function from its
sentence: convert the native coordinate to a local pixel coordinate via
the inverse affine mapping given by the pixel scale and origin; if that
pixel lies outside `[0, imageWidth) x [0, imageLength)` return NaN with no
error; otherwise return the element of the fetched tile at index
`(localX mod tileWidth) + (localY mod tileLength) * tileWidth`, NaN when
that element equals the no-data sentinel, and NaN when the tile is known
empty. -/
def sampleSpecC2 (f : GeoTIFFTile) (coord : Coord) : Except Err (Option ℚ) :=
  let localX := (coord.X - f.translateX).tdiv f.scaleX
  let localY := (-(coord.Y - f.translateY)).tdiv f.scaleY
  if localX < 0 ∨ f.imageWidth ≤ localX ∨ localY < 0 ∨ f.imageLength ≤ localY then
    .ok none
  else
    match f.tiles ⟨localX.tdiv f.tileWidth, localY.tdiv f.tileLength⟩ with
    | .error e => .error e
    | .ok none => .ok none
    | .ok (some samples) =>
      let v := samples.getD
        (localX.tmod f.tileWidth + (localY.tmod f.tileLength) * f.tileWidth).toNat 0
      if v = noData then .ok none else .ok (some v)

/-- A concrete decoder with scale (10, 10), origin (0, 0) and a 5x5 image
whose single tile is known empty; used as witness input. -/
def tile10 : GeoTIFFTile :=
  { imageWidth := 5
    imageLength := 5
    tileWidth := 5
    tileLength := 5
    scaleX := 10
    scaleY := 10
    translateX := 0
    translateY := 0
    tiles := fun _ => .ok none }

/-- A concrete 2x2 single-tile decoder used as witness input: samples
[1, 2, 3, 4] on tile (0, 0), scale (1, 1), origin (0, 0). -/
def f0 : GeoTIFFTile :=
  { imageWidth := 2
    imageLength := 2
    tileWidth := 2
    tileLength := 2
    scaleX := 1
    scaleY := 1
    translateX := 0
    translateY := 0
    tiles := fun tc => if tc = ⟨0, 0⟩ then .ok (some [1, 2, 3, 4]) else .ok none }

/-- One step of Go's `indexesByLocalTileCoord[k] = append(...)`: append the
value to the group of key `k`, creating the group if absent. -/
def addGroup {κ α : Type} [DecidableEq κ] : List (κ × List α) → κ → α → List (κ × List α)
  | [], k, v => [(k, [v])]
  | g :: gs, k, v => if g.1 = k then (g.1, g.2 ++ [v]) :: gs else g :: addGroup gs k v

/-- Lookup of a group by key (first match; keys are kept distinct by
`addGroup`). -/
def groupOf {κ α : Type} [DecidableEq κ] : List (κ × List α) → κ → List α
  | [], _ => []
  | g :: gs, k => if g.1 = k then g.2 else groupOf gs k

/-- The first pass of the batched `Samples` methods: walk the enumerated
coordinates once, writing NaN into the result slice for coordinates with
no mapped key, and appending every other index/coordinate pair to the
group of its key.  For the decoder the key function is
`GeoTIFFTile.localTileCoord` after `localCoord`; for the tile-set router
it is `tileCoordFunc`. -/
def samplesScan {κ : Type} [DecidableEq κ] (keyOf : Coord → Option κ) :
    List (ℕ × Coord) → List (Option ℚ) × List (κ × List (ℕ × Coord)) →
    List (Option ℚ) × List (κ × List (ℕ × Coord))
  | [], acc => acc
  | p :: ps, (smp, gs) =>
    match keyOf p.2 with
    | none => samplesScan keyOf ps (smp.set p.1 none, gs)
    | some k => samplesScan keyOf ps (smp, addGroup gs k p)

/-- Specification of the group structure produced by the first pass of a
batched `Samples` call over the processed pair list `ps`: the group keys
are distinct, the group of key `k` is exactly the subsequence of `ps`
whose coordinates map to `k`, and no group is empty. -/
structure GroupsOk {κ : Type} [DecidableEq κ] (keyOf : Coord → Option κ)
    (ps : List (ℕ × Coord)) (gs : List (κ × List (ℕ × Coord))) : Prop where
  nodupKeys : (gs.map Prod.fst).Nodup
  char : ∀ k, groupOf gs k = ps.filter (fun p => decide (keyOf p.2 = some k))
  nonempty : ∀ g ∈ gs, g.2 ≠ []

/-- Writing the per-group values back into the result slice (the inner
`for _, index := range indexes` loop; the source sorts the indexes first,
which only fixes the write order of writes to distinct positions). -/
def fillFold (vals : ℕ × Coord → Option ℚ) (vs : List (ℕ × Coord))
    (smp : List (Option ℚ)) : List (Option ℚ) :=
  vs.foldl (fun s p => s.set p.1 (vals p)) smp

/-- The per-group loop of `GeoTIFFTile.Samples`: one
`getTileSamplesCached` call per distinct local tile coordinate, aborting
on the first error, otherwise scattering `tileSample` values to the
group's indexes. -/
def GeoTIFFTile.samplesLoop (f : GeoTIFFTile) :
    List (TileCoord × List (ℕ × Coord)) → List (Option ℚ) → Except Err (List (Option ℚ))
  | [], smp => .ok smp
  | g :: gs, smp =>
    match f.tiles g.1 with
    | .error e => .error e
    | .ok ts => f.samplesLoop gs (fillFold (fun p => f.tileSample ts p.2) g.2 smp)

/-- Model of `GeoTIFFTile.Samples`: map the coordinates to local
coordinates, group the indexes by local tile coordinate while writing NaN
for out-of-image coordinates, then fill the result one tile at a time. -/
def GeoTIFFTile.Samples (f : GeoTIFFTile) (coords : List Coord) : Except Err (List (Option ℚ)) :=
  let localCoords := coords.map f.localCoord
  let scanned := samplesScan f.localTileCoord localCoords.enum
    (List.replicate coords.length (some 0), [])
  f.samplesLoop scanned.2 scanned.1

/-- Model of `GeoTIFFTileSet` (geotifftileset.go, lru variant): the
caller-supplied policy functions and scale, plus `newTile`, which
abstracts `NewGeoTIFFTile(fsys, filename, options...)` — opening and
validating a backing file by name, failing with `Err.notExist` when the
filesystem reports `fs.ErrNotExist`. -/
structure GeoTIFFTileSet where
  tileCoordFunc : Coord → Option TileCoord
  tileFilenameFunc : TileCoord → String
  newTile : String → Except Err GeoTIFFTile
  scaleX : ℤ
  scaleY : ℤ
  srid : ℤ

/-- Mutable state of a `GeoTIFFTileSet`: the missing-tile set (`sync.Map`)
and the open-decoder cache.  The hashicorp LRU cache is modelled as an
association list without the capacity bound: eviction only affects which
present tiles need reopening and no claim below depends on it.  The cache
value is the possibly-nil `*GeoTIFFTile` pointer exactly as
`getTileCached` Adds it (`none` models the nil pointer stored for a
missing tile). -/
structure SetState where
  missingTiles : List TileCoord
  geoTIFFTileCache : List (TileCoord × Option GeoTIFFTile)

/-- Lookup in the modelled open-decoder cache (first match). -/
def cacheGet : List (TileCoord × Option GeoTIFFTile) → TileCoord → Option (Option GeoTIFFTile)
  | [], _ => none
  | e :: rest, tc => if e.1 = tc then some e.2 else cacheGet rest tc

/-- Model of `GeoTIFFTileSet.getTileCached` together with `getTile`
(lru variant), sequentially: check the missing-tile set, then the cache;
on a miss open the backing file via `NewGeoTIFFTile`.  A not-exist failure
records the missing marker and stores the nil tile in the cache; any
other failure propagates; success stores the open tile.  The mutex and
the double-checked recheck of the source collapse in this sequential
model.  The last component is the probe trace: the tile coordinates for
which a backing-file open was attempted. -/
def GeoTIFFTileSet.getTileCached (s : GeoTIFFTileSet) (st : SetState) (tc : TileCoord) :
    Except Err (Option GeoTIFFTile) × SetState × List TileCoord :=
  if tc ∈ st.missingTiles then (.ok none, st, [])
  else
    match cacheGet st.geoTIFFTileCache tc with
    | some tile => (.ok tile, st, [])
    | none =>
      match s.newTile (s.tileFilenameFunc tc) with
      | .error e =>
        if e = Err.notExist then
          (.ok none, ⟨tc :: st.missingTiles, (tc, none) :: st.geoTIFFTileCache⟩, [tc])
        else
          (.error e, st, [tc])
      | .ok tile => (.ok (some tile), ⟨st.missingTiles, (tc, some tile) :: st.geoTIFFTileCache⟩, [tc])

/-- The scatter step of the router's `Samples`:
`samples[group.indexes[localIndex]] = localSamples[localIndex]`. -/
def scatterFold (idxs : List ℕ) (vals : List (Option ℚ)) (smp : List (Option ℚ)) :
    List (Option ℚ) :=
  (idxs.zip vals).foldl (fun s p => s.set p.1 p.2) smp

/-- The per-group loop of the router's `Samples`: for each distinct
backing tile coordinate obtain the cached decoder; a nil decoder (missing
file) fills NaN for the whole group, otherwise the decoder's own batched
`Samples` over the group's coordinates is scattered back.  Any error
aborts the loop.  State and the probe trace are threaded through. -/
def GeoTIFFTileSet.samplesLoop (s : GeoTIFFTileSet) :
    List (TileCoord × List (ℕ × Coord)) → List (Option ℚ) → SetState →
    Except Err (List (Option ℚ)) × SetState × List TileCoord
  | [], smp, st => (.ok smp, st, [])
  | g :: gs, smp, st =>
    let r := s.getTileCached st g.1
    match r.1 with
    | .error e => (.error e, r.2.1, r.2.2)
    | .ok none =>
      let rec2 := s.samplesLoop gs (fillFold (fun _ => none) g.2 smp) r.2.1
      (rec2.1, rec2.2.1, r.2.2 ++ rec2.2.2)
    | .ok (some tile) =>
      match tile.Samples (g.2.map Prod.snd) with
      | .error e => (.error e, r.2.1, r.2.2)
      | .ok localSamples =>
        let rec2 := s.samplesLoop gs (scatterFold (g.2.map Prod.fst) localSamples smp) r.2.1
        (rec2.1, rec2.2.1, r.2.2 ++ rec2.2.2)

/-- Model of the router's `Samples` (lru variant): write NaN for
coordinates outside all coverage while grouping the rest by backing tile
coordinate, then fill the result one backing tile at a time. -/
def GeoTIFFTileSet.Samples (s : GeoTIFFTileSet) (st : SetState) (coords : List Coord) :
    Except Err (List (Option ℚ)) × SetState × List TileCoord :=
  let scanned := samplesScan s.tileCoordFunc coords.enum
    (List.replicate coords.length (some 0), [])
  s.samplesLoop scanned.2 scanned.1 st

/-- Decidable equality of `Except` results, used to evaluate the models
at concrete witness inputs. -/
instance {ε α : Type} [DecidableEq ε] [DecidableEq α] : DecidableEq (Except ε α) := fun x y =>
  match x, y with
  | .ok a, .ok b =>
    if h : a = b then isTrue (h ▸ rfl) else isFalse (fun hh => h (Except.ok.inj hh))
  | .error a, .error b =>
    if h : a = b then isTrue (h ▸ rfl) else isFalse (fun hh => h (Except.error.inj hh))
  | .ok _, .error _ => isFalse (fun hh => Except.noConfusion hh)
  | .error _, .ok _ => isFalse (fun hh => Except.noConfusion hh)

/-- A file handle as returned by the abstract filesystem: either a real
`*os.File` or some other `fs.File` implementation; both carry abstract
contents (a token consumed by the TIFF parser model). -/
inductive FileHandle where
  | osFile (content : ℕ)
  | otherFile (content : ℕ)
  deriving DecidableEq, Repr

/-- The fields of `geoTIFFIFD` (geotifftile.go) consumed by
`NewGeoTIFFTile`'s validation: the tag values unmarshalled from the single
IFD.  `uint16` tags are ℕ, `float64` tag vectors are exact rationals. -/
structure GeoTIFFIFD where
  imageWidth : ℕ
  imageLength : ℕ
  bitsPerSample : ℕ
  compression : ℕ
  photometricInterpretation : ℕ
  samplesPerPixel : ℕ
  planarConfiguration : ℕ
  predictor : ℕ
  tileWidth : ℕ
  tileLength : ℕ
  tileOffsets : List ℕ
  tileByteCounts : List ℕ
  sampleFormat : ℕ
  modelPixelScaleTag : List ℚ
  modelTiepointTag : List ℚ
  gdalNoData : String

/-- The external collaborators of `NewGeoTIFFTile`: the filesystem's
open-by-name, and the out-of-scope `github.com/google/tiff` parser and
IFD unmarshaller, abstracted as functions of the opened content (IFDs are
abstract tokens consumed by the unmarshaller). -/
structure OpenEnv where
  openFile : String → Except Err FileHandle
  parseIFDs : ℕ → Except Err (List ℕ)
  unmarshalIFD : ℕ → Except Err GeoTIFFIFD

/-- The raster state `NewGeoTIFFTile` retains on success (the geometry
fields of `GeoTIFFTile`; the tile cache always constructs successfully
since its size has floor 1). -/
structure GeoTIFFTileProfile where
  imageWidth : ℤ
  imageLength : ℤ
  tileWidth : ℤ
  tileLength : ℤ
  tilesAcross : ℤ
  tilesDown : ℤ
  tileOffsets : List ℕ
  tileByteCounts : List ℕ
  smallestTileByteCount : ℕ
  tileSampleCount : ℤ
  tileByteCountUncompressed : ℤ
  scaleX : ℤ
  scaleY : ℤ
  translateX : ℤ
  translateY : ℤ
  deriving DecidableEq, Repr

/-- The outcome of `NewGeoTIFFTile`: the returned decoder profile or
error, together with whether the code closed the opened file handle
before returning (the `defer` with the `ok` flag; `false` on success,
where the handle stays open, and `false` when no handle was obtained or
the non-`*os.File` early return fired before the `defer` was
installed). -/
structure OpenResult where
  result : Except Err GeoTIFFTileProfile
  fileClosed : Bool
  deriving DecidableEq, Repr

/-- The tag-level profile checks of `NewGeoTIFFTile` (lines 155-166 of
geotifftile.go), which run before the tile-table length check. -/
def tagLevelUnsupported (ifd : GeoTIFFIFD) : Prop :=
  ifd.bitsPerSample ≠ 32 ∨ ifd.compression ≠ 5 ∨ ifd.photometricInterpretation ≠ 1 ∨
  ifd.samplesPerPixel ≠ 1 ∨ ifd.planarConfiguration ≠ 1 ∨ ifd.predictor ≠ 1 ∨
  ifd.sampleFormat ≠ 3 ∨
  ifd.modelPixelScaleTag.length ≠ 3 ∨ ifd.modelPixelScaleTag.getD 2 0 ≠ 0 ∨
  ifd.modelTiepointTag.length ≠ 6 ∨ ifd.modelTiepointTag.getD 2 0 ≠ 0 ∨
  ifd.modelTiepointTag.getD 5 0 ≠ 0 ∨
  ifd.gdalNoData ≠ "-3.4028234663852886e+038"

instance (ifd : GeoTIFFIFD) : Decidable (tagLevelUnsupported ifd) := by
  unfold tagLevelUnsupported
  infer_instance

/-- The tile grid size `tilesAcross * tilesDown` computed by
`NewGeoTIFFTile` with Go integer division. -/
def tilesPerImage (ifd : GeoTIFFIFD) : ℤ :=
  (((ifd.imageWidth : ℤ) + ifd.tileWidth - 1).tdiv ifd.tileWidth) *
    (((ifd.imageLength : ℤ) + ifd.tileLength - 1).tdiv ifd.tileLength)

/-- The tile-table length check of `NewGeoTIFFTile` (line 176). -/
def tableLengthWrong (ifd : GeoTIFFIFD) : Prop :=
  (ifd.tileByteCounts.length : ℤ) ≠ tilesPerImage ifd ∨
  (ifd.tileOffsets.length : ℤ) ≠ tilesPerImage ifd

instance (ifd : GeoTIFFIFD) : Decidable (tableLengthWrong ifd) := by
  unfold tableLengthWrong
  infer_instance

/-- The value-level scale and tiepoint checks of `NewGeoTIFFTile`
(lines 196-207), which run after the tile-table length check:
non-integral pixel scale, nonzero tiepoint raster point, or non-integral
or nonzero-z model point. -/
def valueLevelUnsupported (ifd : GeoTIFFIFD) : Prop :=
  (¬((ratTrunc (ifd.modelPixelScaleTag.getD 0 0) : ℚ) = ifd.modelPixelScaleTag.getD 0 0) ∨
    ¬((ratTrunc (ifd.modelPixelScaleTag.getD 1 0) : ℚ) = ifd.modelPixelScaleTag.getD 1 0) ∨
    ifd.modelPixelScaleTag.getD 2 0 ≠ 0) ∨
  (ifd.modelTiepointTag.getD 0 0 ≠ 0 ∨ ifd.modelTiepointTag.getD 1 0 ≠ 0 ∨
    ifd.modelTiepointTag.getD 2 0 ≠ 0) ∨
  (¬((ratTrunc (ifd.modelTiepointTag.getD 3 0) : ℚ) = ifd.modelTiepointTag.getD 3 0) ∨
    ¬((ratTrunc (ifd.modelTiepointTag.getD 4 0) : ℚ) = ifd.modelTiepointTag.getD 4 0) ∨
    ifd.modelTiepointTag.getD 5 0 ≠ 0)

instance (ifd : GeoTIFFIFD) : Decidable (valueLevelUnsupported ifd) := by
  unfold valueLevelUnsupported
  infer_instance

/-- Model of `NewGeoTIFFTile` (geotifftile.go): open the file by name,
reject non-`*os.File` handles with `errors.ErrUnsupported` before the
close-on-failure defer is installed, parse the TIFF, require exactly one
IFD, unmarshal it, and validate it against the fixed supported profile in
source order: tag-level checks, then the tile-table length check, then
the scale and tiepoint value checks.  Empty `TileByteCounts`, on which
the Go `TileByteCounts[0]` would panic, give the smallest byte count 0
here (unreachable for any table passing the length check with a nonempty
grid). -/
def newGeoTIFFTile (env : OpenEnv) (filename : String) : OpenResult :=
  match env.openFile filename with
  | .error e => ⟨.error e, false⟩
  | .ok (FileHandle.otherFile _) => ⟨.error .unsupported, false⟩
  | .ok (FileHandle.osFile content) =>
    match env.parseIFDs content with
    | .error e => ⟨.error e, true⟩
    | .ok ifds =>
      if ifds.length ≠ 1 then ⟨.error (.wrongIFDCount ifds.length), true⟩
      else
        match env.unmarshalIFD (ifds.getD 0 0) with
        | .error e => ⟨.error e, true⟩
        | .ok ifd =>
          if tagLevelUnsupported ifd then ⟨.error .unsupported, true⟩
          else
            let imageWidth : ℤ := ifd.imageWidth
            let imageLength : ℤ := ifd.imageLength
            let tileWidth : ℤ := ifd.tileWidth
            let tileLength : ℤ := ifd.tileLength
            let tilesAcross := (imageWidth + tileWidth - 1).tdiv tileWidth
            let tilesDown := (imageLength + tileLength - 1).tdiv tileLength
            if tableLengthWrong ifd then ⟨.error .badTileTables, true⟩
            else
              let smallestTileByteCount :=
                ifd.tileByteCounts.foldl min (ifd.tileByteCounts.getD 0 0)
              let tileSampleCount := tileWidth * tileLength
              let scaleX := ifd.modelPixelScaleTag.getD 0 0
              let scaleY := ifd.modelPixelScaleTag.getD 1 0
              let scaleZ := ifd.modelPixelScaleTag.getD 2 0
              if ¬((ratTrunc scaleX : ℚ) = scaleX) ∨ ¬((ratTrunc scaleY : ℚ) = scaleY) ∨
                  scaleZ ≠ 0 then ⟨.error .unsupported, true⟩
              else if ifd.modelTiepointTag.getD 0 0 ≠ 0 ∨ ifd.modelTiepointTag.getD 1 0 ≠ 0 ∨
                  ifd.modelTiepointTag.getD 2 0 ≠ 0 then ⟨.error .unsupported, true⟩
              else
                let x := ifd.modelTiepointTag.getD 3 0
                let y := ifd.modelTiepointTag.getD 4 0
                let z := ifd.modelTiepointTag.getD 5 0
                if ¬((ratTrunc x : ℚ) = x) ∨ ¬((ratTrunc y : ℚ) = y) ∨ z ≠ 0 then
                  ⟨.error .unsupported, true⟩
                else
                  ⟨.ok
                    { imageWidth := imageWidth
                      imageLength := imageLength
                      tileWidth := tileWidth
                      tileLength := tileLength
                      tilesAcross := tilesAcross
                      tilesDown := tilesDown
                      tileOffsets := ifd.tileOffsets
                      tileByteCounts := ifd.tileByteCounts
                      smallestTileByteCount := smallestTileByteCount
                      tileSampleCount := tileSampleCount
                      tileByteCountUncompressed := (tileSampleCount * ifd.bitsPerSample).tdiv 8
                      scaleX := ratTrunc scaleX
                      scaleY := ratTrunc scaleY
                      translateX := ratTrunc x
                      translateY := ratTrunc y }, false⟩

/-- An IFD violating both the tag-level profile (16 bits per sample) and
the tile-table length (no table entries for a 1x1 grid). -/
def badIFD : GeoTIFFIFD :=
  { imageWidth := 1
    imageLength := 1
    bitsPerSample := 16
    compression := 5
    photometricInterpretation := 1
    samplesPerPixel := 1
    planarConfiguration := 1
    predictor := 1
    tileWidth := 1
    tileLength := 1
    tileOffsets := []
    tileByteCounts := []
    sampleFormat := 3
    modelPixelScaleTag := [1, 1, 0]
    modelTiepointTag := [0, 0, 0, 0, 0, 0]
    gdalNoData := "-3.4028234663852886e+038" }

/-- The `badIFD` with conforming tags but still missing tile tables. -/
def badTableIFD : GeoTIFFIFD := { badIFD with bitsPerSample := 32 }

/-- A conforming IFD except for a non-integral pixel scale. -/
def badScaleIFD : GeoTIFFIFD :=
  { badIFD with
    bitsPerSample := 32
    tileOffsets := [8]
    tileByteCounts := [4]
    modelPixelScaleTag := [1/2, 1, 0] }

/-- An environment serving an OS file that unmarshals to the given IFD. -/
def envFor (ifd : GeoTIFFIFD) : OpenEnv :=
  { openFile := fun _ => .ok (FileHandle.osFile 0)
    parseIFDs := fun _ => .ok [0]
    unmarshalIFD := fun _ => .ok ifd }

/-- An environment whose filesystem returns a non-`*os.File` handle. -/
def envOther : OpenEnv :=
  { openFile := fun _ => .ok (FileHandle.otherFile 0)
    parseIFDs := fun _ => .ok [0]
    unmarshalIFD := fun _ => .ok badIFD }

/-- The empty router state: nothing marked missing, nothing cached. -/
def stEmpty : SetState := ⟨[], []⟩

/-- A concrete router whose single backing file opens as `f0`. -/
def s0 : GeoTIFFTileSet :=
  { tileCoordFunc := fun _ => some ⟨0, 0⟩
    tileFilenameFunc := fun _ => "tile"
    newTile := fun _ => .ok f0
    scaleX := 1
    scaleY := 1
    srid := 3035 }

/-- A concrete router whose backing files never exist. -/
def s1 : GeoTIFFTileSet :=
  { tileCoordFunc := fun _ => some ⟨0, 0⟩
    tileFilenameFunc := fun _ => "missing"
    newTile := fun _ => .error .notExist
    scaleX := 1
    scaleY := 1
    srid := 3035 }

/-- The router state after the missing tile (0, 0) has been looked up
once. -/
def stMarked : SetState := ⟨[⟨0, 0⟩], [(⟨0, 0⟩, none)]⟩

/-- The value component of a successful decoder `Sample`; used to state
what the router writes back for a group whose decoder calls succeed. -/
def sampleValD (t : GeoTIFFTile) (c : Coord) : Option ℚ :=
  match t.Sample c with
  | .ok v => v
  | .error _ => none

/-- Two router states agree at a tile coordinate when they hold the same
missing-marker and cache information for it; `getTileCached` reads only
this information of its argument coordinate. -/
def SetState.agreeAt (st1 st2 : SetState) (tc : TileCoord) : Prop :=
  (tc ∈ st1.missingTiles ↔ tc ∈ st2.missingTiles) ∧
  cacheGet st1.geoTIFFTileCache tc = cacheGet st2.geoTIFFTileCache tc

/-- Evaluation of the router at a single coordinate from a given state:
the coverage policy, then the cached-open result from that state, then
the decoder's own `Sample`.  Used to state pointwise correspondence
results about the batched router `Samples`. -/
def GeoTIFFTileSet.evalAt (s : GeoTIFFTileSet) (st : SetState) (c : Coord) :
    Except Err (Option ℚ) :=
  match s.tileCoordFunc c with
  | none => .ok none
  | some tc =>
    match (s.getTileCached st tc).1 with
    | .error e => .error e
    | .ok none => .ok none
    | .ok (some tile) => tile.Sample c

/-- Fixed per-decoder data that `getTileSamples` reads but never writes:
the tile grid layout, the tile tables, the smallest recorded byte count,
the backing file (`ReadAt`, as a function from byte count and offset to
bytes), and the composition of `decompressTileData` with
`decodeTileData` (whose only failure mode is a decompression error). -/
structure DecEnv where
  tilesAcross : ℤ
  tileByteCounts : List ℕ
  tileOffsets : List ℕ
  smallestTileByteCount : ℕ
  readAt : ℕ → ℕ → Except Err (List ℕ)
  decompressDecode : List ℕ → Except Err (List ℚ)

/-- The mutable per-decoder state that the tile-sample path touches: the
learned empty-tile signature `emptyTileBytes`, the set of tiles known
empty (`emptyTiles`, a `sync.Map` of keys), and the bounded LRU
`tileCache` as an association list (eviction abstracted away). -/
structure DecState where
  emptyTileBytes : Option (List ℕ)
  emptyTiles : List TileCoord
  tileCache : List (TileCoord × List ℚ)
  deriving DecidableEq, Repr

/-- Association-list lookup mirroring `tileCache.Get`. -/
def decCacheGet : List (TileCoord × List ℚ) → TileCoord → Option (List ℚ)
  | [], _ => none
  | e :: rest, tc => if e.1 = tc then some e.2 else decCacheGet rest tc

/-- Model of `GeoTIFFTile.getCompressedTileData` (geotifftile.go lines
280-295): read `TileByteCounts[i]` bytes at `TileOffsets[i]` for the
tile's index `i = C + tilesAcross*R`; a read returning the wrong number
of bytes is `errShortRead`; if a signature is known and the bytes equal
it byte-for-byte, report the tile empty (`nil` data) without error.
Go's panicking slice indexing is modelled with default 0, unreachable
for coordinates inside a grid that passed the table-length check. -/
def getCompressedTileData (env : DecEnv) (st : DecState) (tc : TileCoord) :
    Except Err (Option (List ℕ)) :=
  let tileIndex := (tc.C + env.tilesAcross * tc.R).toNat
  let tileByteCount := env.tileByteCounts.getD tileIndex 0
  let tileOffset := env.tileOffsets.getD tileIndex 0
  match env.readAt tileByteCount tileOffset with
  | .error e => .error e
  | .ok compressedData =>
    if compressedData.length ≠ tileByteCount then .error .shortRead
    else if st.emptyTileBytes = some compressedData then .ok none
    else .ok (some compressedData)

/-- Model of `GeoTIFFTile.getTileSamples` (geotifftile.go lines
330-368), returning the result, the state after the call, and how many
times the tile data was decompressed: fetch the compressed bytes (an
empty `nil` fetch returns empty immediately, without decompressing);
otherwise decompress and decode, and if no signature is known yet and
the compressed length equals the smallest recorded byte count and every
decoded sample is the no-data sentinel, record the bytes as the
signature and report the tile empty, discarding the decoded samples. -/
def getTileSamples (env : DecEnv) (st : DecState) (tc : TileCoord) :
    Except Err (Option (List ℚ)) × DecState × ℕ :=
  match getCompressedTileData env st tc with
  | .error e => (.error e, st, 0)
  | .ok none => (.ok none, st, 0)
  | .ok (some compressedData) =>
    match env.decompressDecode compressedData with
    | .error e => (.error e, st, 1)
    | .ok tileSamples =>
      if st.emptyTileBytes = none ∧
          compressedData.length = env.smallestTileByteCount then
        if ∀ s ∈ tileSamples, s = noData then
          (.ok none, { st with emptyTileBytes := some compressedData }, 1)
        else (.ok (some tileSamples), st, 1)
      else (.ok (some tileSamples), st, 1)

/-- Model of `GeoTIFFTile.getTileSamplesCached` (geotifftile.go lines
370-418) run sequentially, so the double-checked locking collapses to
one check of each cache: known-empty tiles and cached tiles answer
without touching the file; otherwise `getTileSamples` runs and an empty
result records the tile in `emptyTiles` while a non-empty result is
added to the tile cache (LRU eviction abstracted away). -/
def getTileSamplesCached (env : DecEnv) (st : DecState) (tc : TileCoord) :
    Except Err (Option (List ℚ)) × DecState × ℕ :=
  if tc ∈ st.emptyTiles then (.ok none, st, 0)
  else
    match decCacheGet st.tileCache tc with
    | some tileSamples => (.ok (some tileSamples), st, 0)
    | none =>
      let r := getTileSamples env st tc
      match r.1 with
      | .error e => (.error e, r.2.1, r.2.2)
      | .ok none =>
        (.ok none, { r.2.1 with emptyTiles := tc :: r.2.1.emptyTiles }, r.2.2)
      | .ok (some tileSamples) =>
        (.ok (some tileSamples),
          { r.2.1 with tileCache := (tc, tileSamples) :: r.2.1.tileCache },
          r.2.2)

/-- A backing environment for a 2x1 tile grid in which every tile reads
as the two bytes `[7, 7]` and decompresses to two no-data samples. -/
def envEmptyTiles : DecEnv :=
  { tilesAcross := 2
    tileByteCounts := [2, 2]
    tileOffsets := [0, 2]
    smallestTileByteCount := 2
    readAt := fun count _ => .ok (List.replicate count 7)
    decompressDecode := fun _ => .ok [noData, noData] }

/-- The decoder state before any tile has been fetched. -/
def dstEmpty : DecState := ⟨none, [], []⟩

/-- The decoder state after the empty-tile signature `[7, 7]` has been
learned from the tile at column 0. -/
def dstSig : DecState := ⟨some [7, 7], [⟨0, 0⟩], []⟩

/-- Truncation toward zero is the identity on integer values. -/
theorem ratTrunc_intCast (n : ℤ) : ratTrunc (n : ℚ) = n := by
  rw [ratTrunc]
  by_cases h : (0 : ℚ) ≤ (n : ℚ)
  · rw [if_pos h]
    exact Int.floor_intCast n
  · rw [if_neg h]
    exact Int.ceil_intCast n

/-- Indexing a flattened list of 4-element blocks. -/
theorem getD_flatten_blocks {β : Type} (blocks : List (List β))
    (hb : ∀ b ∈ blocks, b.length = 4) (i k : ℕ) (hk : k < 4) (d : β) :
    blocks.flatten.getD (4*i + k) d = (blocks.getD i []).getD k d := by
  induction blocks generalizing i with
  | nil => simp [List.getD]
  | cons b bs ih =>
    have hlen : b.length = 4 := hb b (List.mem_cons_self b bs)
    rcases b with _ | ⟨b0, _ | ⟨b1, _ | ⟨b2, _ | ⟨b3, _ | ⟨b4, r⟩⟩⟩⟩⟩ <;>
      simp only [List.length_cons, List.length_nil] at hlen <;> try omega
    cases i with
    | zero =>
      simp only [Nat.mul_zero, Nat.zero_add, List.flatten_cons, List.cons_append,
        List.nil_append, List.getD_cons_zero, List.getD_cons_succ]
      interval_cases k <;> rfl
    | succ j =>
      have harith : 4*(j+1) + k = (4*j + k) + 1 + 1 + 1 + 1 := by omega
      rw [harith]
      simp only [List.flatten_cons, List.cons_append, List.nil_append,
        List.getD_cons_succ]
      exact ih (fun x hx => hb x (List.mem_cons_of_mem _ hx)) j

/-- Auxiliary: the batched corner samples of `InterpolateBilinear` are the
pointwise corner samples, block by block. -/
theorem bilinear_samples_getD (raster : Raster) (coords : List (ℚ × ℚ))
    (i k : ℕ) (hi : i < coords.length) (hk : k < 4) :
    (raster.Samples ((coords.map (bilinearCorners raster.scaleX raster.scaleY)).flatten)).getD (4*i + k) none =
      raster.sample ((bilinearCorners raster.scaleX raster.scaleY (coords.get ⟨i, hi⟩)).getD k ⟨0, 0⟩) := by
  have hmap : raster.Samples ((coords.map (bilinearCorners raster.scaleX raster.scaleY)).flatten) =
      (coords.map (fun c => (bilinearCorners raster.scaleX raster.scaleY c).map raster.sample)).flatten := by
    simp only [Raster.Samples, List.map_flatten, List.map_map]
    rfl
  rw [hmap, getD_flatten_blocks _ (by
    intro b hb
    simp only [List.mem_map] at hb
    obtain ⟨c, _, hc⟩ := hb
    subst hc
    simp [bilinearCorners]) i k hk]
  have hgd : (coords.map (fun c => (bilinearCorners raster.scaleX raster.scaleY c).map raster.sample)).getD i [] =
      (bilinearCorners raster.scaleX raster.scaleY (coords.get ⟨i, hi⟩)).map raster.sample := by
    rw [List.getD_eq_getElem?_getD, List.getElem?_map]
    simp [List.getElem?_eq_getElem hi]
  rw [hgd]
  show ((bilinearCorners raster.scaleX raster.scaleY (coords.get ⟨i, hi⟩)).map raster.sample).getD k none = _
  rw [bilinearCorners.eq_def]
  interval_cases k <;> rfl

/-- Helper: `InterpolateBilinear` computes, at every index, the
truncation-based bilinear formula. -/
theorem interpolateBilinear_eq_truncPoint (raster : Raster) (coords : List (ℚ × ℚ)) :
    InterpolateBilinear raster coords = coords.map (fun c => bilinearTruncPoint raster c.1 c.2) := by
  apply List.ext_getElem
  · simp [InterpolateBilinear]
  · intro i h1 h2
    have hi : i < coords.length := by simpa using h2
    simp only [InterpolateBilinear, List.getElem_map, List.getElem_enum]
    have hs0 := bilinear_samples_getD raster coords i 0 hi (by omega)
    have hs1 := bilinear_samples_getD raster coords i 1 hi (by omega)
    have hs2 := bilinear_samples_getD raster coords i 2 hi (by omega)
    have hs3 := bilinear_samples_getD raster coords i 3 hi (by omega)
    rw [bilinearCorners.eq_def] at hs0 hs1 hs2 hs3
    simp only [Nat.add_zero, List.getD_cons_zero, List.getD_cons_succ,
      List.get_eq_getElem] at hs0 hs1 hs2 hs3
    rcases hc : coords[i] with ⟨x, y⟩
    rw [hc] at hs0 hs1 hs2 hs3
    simp only [bilinearCombine, bilinearTruncPoint, hs0, hs1, hs2, hs3]
    rcases raster.sample ⟨raster.scaleX * ((ratTrunc x).tdiv raster.scaleX),
        raster.scaleY * ((ratTrunc y).tdiv raster.scaleY)⟩ with _ | s00 <;>
      rcases raster.sample ⟨raster.scaleX * ((ratTrunc x).tdiv raster.scaleX) + raster.scaleX,
        raster.scaleY * ((ratTrunc y).tdiv raster.scaleY)⟩ with _ | s10 <;>
      rcases raster.sample ⟨raster.scaleX * ((ratTrunc x).tdiv raster.scaleX),
        raster.scaleY * ((ratTrunc y).tdiv raster.scaleY) + raster.scaleY⟩ with _ | s01 <;>
      rcases raster.sample ⟨raster.scaleX * ((ratTrunc x).tdiv raster.scaleX) + raster.scaleX,
        raster.scaleY * ((ratTrunc y).tdiv raster.scaleY) + raster.scaleY⟩ with _ | s11 <;>
      simp [nadd, nmul]

/-- C3 counterexample: the claim asserts that `InterpolateBilinear` uses the
floor-based lattice cell `x0 = scaleX * floor(x/scaleX)`; at the negative
query x = -5 on `stepRaster` the implementation (which truncates toward
zero) disagrees with the floor-based formula, so the claim as stated is
false.  The implementation yields 1 (cell [0,10], dx = -1/2), the claimed
formula yields 1/2 (cell [-10,0], dx = 1/2). -/
theorem interpolateBilinear_floor_counterexample :
    InterpolateBilinear stepRaster [((-5 : ℚ), (0 : ℚ))] ≠
      [((-5 : ℚ), (0 : ℚ))].map (fun c => bilinearFloorPoint stepRaster c.1 c.2) := by
  have tneg : ratTrunc (-5 : ℚ) = -5 := by
    rw [show ((-5 : ℚ)) = ((-5 : ℤ) : ℚ) by norm_num]
    exact ratTrunc_intCast _
  have tzero : ratTrunc (0 : ℚ) = 0 := by
    rw [show ((0 : ℚ)) = ((0 : ℤ) : ℚ) by norm_num]
    exact ratTrunc_intCast _
  have hL : InterpolateBilinear stepRaster [((-5 : ℚ), (0 : ℚ))] = [some 1] := by
    rw [interpolateBilinear_eq_truncPoint]
    simp only [List.map_cons, List.map_nil]
    rw [show bilinearTruncPoint stepRaster (-5) 0 = some 1 from ?_]
    simp only [bilinearTruncPoint, stepRaster, tneg, tzero]
    rw [show ((-5 : ℤ).tdiv 10) = 0 by decide, show ((0 : ℤ).tdiv 10) = 0 by decide]
    norm_num
  have hR : ([((-5 : ℚ), (0 : ℚ))].map fun c => bilinearFloorPoint stepRaster c.1 c.2) =
      [some (1/2)] := by
    simp only [List.map_cons, List.map_nil]
    rw [show bilinearFloorPoint stepRaster (-5) 0 = some (1/2) from ?_]
    simp only [bilinearFloorPoint, stepRaster]
    rw [show (⌊(-5 : ℚ) / ((10 : ℤ) : ℚ)⌋ = -1) from by norm_num,
      show (⌊(0 : ℚ) / ((10 : ℤ) : ℚ)⌋ = 0) from by norm_num]
    norm_num
  rw [hL, hR]
  norm_num

/-- C3 (amended): for every raster and query list, `InterpolateBilinear`
uses the lattice cell whose origin is `x0 = scaleX * trunc(x)/scaleX` with
Go truncation toward zero (both in the float-to-int conversion and in the
integer division) — so for negative x not a multiple of scaleX the cell
origin satisfies x0 ≥ x rather than x0 < x — and returns the weighted sum
of the four corner samples with weights (1-dx)(1-dy), dx(1-dy), (1-dx)dy,
dx*dy where dx = (x-x0)/scaleX and dy = (y-y0)/scaleY; a NaN corner sample
propagates NaN into the result. -/
theorem interpolateBilinear_truncation_spec (raster : Raster) (coords : List (ℚ × ℚ)) :
    InterpolateBilinear raster coords = coords.map (fun c => bilinearTruncPoint raster c.1 c.2) :=
  interpolateBilinear_eq_truncPoint raster coords

/-- C8: for any raster with scale (10, 10) whose samples on the 3x3 lattice
(10*j, 10*i) form the grid [[0,1,2],[2,3,4],[4,5,6]], InterpolateBilinear
returns 1.5 for query (5,5), 0 for query (0,0), 3 for query (10,10) and
0.5 for query (5,0). -/
theorem interpolateBilinear_literal_cases (raster : Raster)
    (hsx : raster.scaleX = 10) (hsy : raster.scaleY = 10)
    (hs : ∀ i j : Fin 3, raster.sample ⟨10 * (j.val : ℤ), 10 * (i.val : ℤ)⟩ =
      some ((testGrid.getD i.val []).getD j.val 0)) :
    InterpolateBilinear raster [((5 : ℚ), (5 : ℚ)), (0, 0), (10, 10), (5, 0)] =
      [some (3/2), some 0, some 3, some (1/2)] := by
  have h00 : raster.sample ⟨0, 0⟩ = some 0 := by simpa [testGrid] using hs 0 0
  have h10 : raster.sample ⟨10, 0⟩ = some 1 := by simpa [testGrid] using hs 0 1
  have h01 : raster.sample ⟨0, 10⟩ = some 2 := by simpa [testGrid] using hs 1 0
  have h11 : raster.sample ⟨10, 10⟩ = some 3 := by simpa [testGrid] using hs 1 1
  have h21 : raster.sample ⟨20, 10⟩ = some 4 := by simpa [testGrid] using hs 1 2
  have h12 : raster.sample ⟨10, 20⟩ = some 5 := by simpa [testGrid] using hs 2 1
  have h22 : raster.sample ⟨20, 20⟩ = some 6 := by simpa [testGrid] using hs 2 2
  have t0 : ratTrunc (0 : ℚ) = 0 := by
    rw [show ((0 : ℚ)) = ((0 : ℤ) : ℚ) by norm_num]
    exact ratTrunc_intCast _
  have t5 : ratTrunc (5 : ℚ) = 5 := by
    rw [show ((5 : ℚ)) = ((5 : ℤ) : ℚ) by norm_num]
    exact ratTrunc_intCast _
  have t10 : ratTrunc (10 : ℚ) = 10 := by
    rw [show ((10 : ℚ)) = ((10 : ℤ) : ℚ) by norm_num]
    exact ratTrunc_intCast _
  have e55 : bilinearTruncPoint raster 5 5 = some (3/2) := by
    simp only [bilinearTruncPoint, hsx, hsy, t5]
    rw [show ((5 : ℤ).tdiv 10) = 0 by decide]
    norm_num [h00, h10, h01, h11]
  have e00 : bilinearTruncPoint raster 0 0 = some 0 := by
    simp only [bilinearTruncPoint, hsx, hsy, t0]
    rw [show ((0 : ℤ).tdiv 10) = 0 by decide]
    norm_num [h00, h10, h01, h11]
  have e1010 : bilinearTruncPoint raster 10 10 = some 3 := by
    simp only [bilinearTruncPoint, hsx, hsy, t10]
    rw [show ((10 : ℤ).tdiv 10) = 1 by decide]
    norm_num [h11, h21, h12, h22]
  have e50 : bilinearTruncPoint raster 5 0 = some (1/2) := by
    simp only [bilinearTruncPoint, hsx, hsy, t5, t0]
    rw [show ((5 : ℤ).tdiv 10) = 0 by decide, show ((0 : ℤ).tdiv 10) = 0 by decide]
    norm_num [h00, h10, h01, h11]
  rw [interpolateBilinear_eq_truncPoint]
  simp only [List.map_cons, List.map_nil, e55, e00, e1010, e50]

/-- Witness for C8 at the concrete test raster. -/
theorem interpolateBilinear_literal_cases_witness :
    InterpolateBilinear simpleRaster [((5 : ℚ), (5 : ℚ)), (0, 0), (10, 10), (5, 0)] =
      [some (3/2), some 0, some 3, some (1/2)] :=
  interpolateBilinear_literal_cases simpleRaster rfl rfl (by decide)

/-- Appending to a group changes only that key's group. -/
theorem groupOf_addGroup {κ α : Type} [DecidableEq κ] (gs : List (κ × List α)) (k k' : κ) (v : α) :
    groupOf (addGroup gs k v) k' =
      if k = k' then groupOf gs k' ++ [v] else groupOf gs k' := by
  induction gs with
  | nil =>
    by_cases h : k = k' <;> simp [addGroup, groupOf, h]
  | cons g gs ih =>
    rcases g with ⟨gk, gvs⟩
    by_cases hg : gk = k
    · subst hg
      by_cases h : gk = k'
      · subst h
        simp [addGroup, groupOf]
      · have h' : ¬(gk = k') := h
        simp [addGroup, groupOf, h']
    · by_cases h2 : gk = k'
      · subst h2
        have h' : ¬(k = gk) := fun he => hg he.symm
        simp [addGroup, groupOf, hg, h']
      · simp [addGroup, groupOf, hg, h2, ih]

/-- Appending to a group preserves the key list or extends it with the new
key. -/
theorem keys_addGroup {κ α : Type} [DecidableEq κ] (gs : List (κ × List α)) (k : κ) (v : α) :
    (addGroup gs k v).map Prod.fst =
      if k ∈ gs.map Prod.fst then gs.map Prod.fst else gs.map Prod.fst ++ [k] := by
  induction gs with
  | nil => simp [addGroup]
  | cons g gs ih =>
    by_cases hg : g.1 = k
    · simp [addGroup, hg]
    · have : ¬(k = g.1) := fun he => hg he.symm
      simp only [addGroup, if_neg hg, List.map_cons, List.mem_cons, this, false_or, ih]
      by_cases hmem : k ∈ gs.map Prod.fst <;> simp [hmem]

/-- Appending to a group preserves distinctness of the keys. -/
theorem nodupKeys_addGroup {κ α : Type} [DecidableEq κ] (gs : List (κ × List α)) (k : κ) (v : α)
    (h : (gs.map Prod.fst).Nodup) : ((addGroup gs k v).map Prod.fst).Nodup := by
  rw [keys_addGroup]
  by_cases hmem : k ∈ gs.map Prod.fst
  · simpa [hmem] using h
  · simp only [hmem, if_neg, ite_false]
    exact List.Nodup.append h (List.nodup_singleton k) (by simpa using hmem)

/-- Appending to a group never creates an empty group. -/
theorem nonempty_addGroup {κ α : Type} [DecidableEq κ] (gs : List (κ × List α)) (k : κ) (v : α)
    (h : ∀ g ∈ gs, g.2 ≠ []) : ∀ g ∈ addGroup gs k v, g.2 ≠ [] := by
  induction gs with
  | nil =>
    intro g hg
    simp only [addGroup, List.mem_singleton] at hg
    subst hg
    simp
  | cons g0 gs ih =>
    intro g hg
    by_cases hk : g0.1 = k
    · simp only [addGroup, if_pos hk, List.mem_cons] at hg
      rcases hg with hg | hg
      · subst hg
        simp
      · exact h g (List.mem_cons_of_mem _ hg)
    · simp only [addGroup, if_neg hk, List.mem_cons] at hg
      rcases hg with hg | hg
      · subst hg
        exact h g (List.mem_cons_self _ _)
      · exact ih (fun g' hg' => h g' (List.mem_cons_of_mem _ hg')) g hg

/-- A key that is absent from the key list has the empty group. -/
theorem groupOf_eq_nil_of_not_mem {κ α : Type} [DecidableEq κ] (gs : List (κ × List α)) (k : κ)
    (h : k ∉ gs.map Prod.fst) : groupOf gs k = [] := by
  induction gs with
  | nil => rfl
  | cons g gs ih =>
    simp only [List.map_cons, List.mem_cons, not_or] at h
    have hne : ¬(g.1 = k) := fun he => h.1 he.symm
    simp only [groupOf, if_neg hne]
    exact ih h.2

/-- With distinct keys, membership determines the group. -/
theorem mem_eq_groupOf {κ α : Type} [DecidableEq κ] (gs : List (κ × List α))
    (h : (gs.map Prod.fst).Nodup) (g : κ × List α) (hg : g ∈ gs) : g.2 = groupOf gs g.1 := by
  induction gs with
  | nil => cases hg
  | cons g0 gs ih =>
    rcases List.mem_cons.mp hg with hg0 | hgs
    · subst hg0
      simp [groupOf]
    · have hne : ¬(g0.1 = g.1) := by
        intro he
        have : g.1 ∈ gs.map Prod.fst := List.mem_map_of_mem Prod.fst hgs
        rw [← he] at this
        exact (List.nodup_cons.mp (by simpa using h)).1 this
      simp only [groupOf, if_neg hne]
      exact ih (List.nodup_cons.mp (by simpa using h)).2 hgs

/-- The first pass preserves the length of the result slice. -/
theorem samplesScan_fst_length {κ : Type} [DecidableEq κ] (keyOf : Coord → Option κ)
    (ps : List (ℕ × Coord)) (smp : List (Option ℚ)) (gs : List (κ × List (ℕ × Coord))) :
    (samplesScan keyOf ps (smp, gs)).1.length = smp.length := by
  induction ps generalizing smp gs with
  | nil => rfl
  | cons p ps ih =>
    simp only [samplesScan]
    cases keyOf p.2 with
    | none => rw [ih]; simp
    | some k => exact ih smp (addGroup gs k p)

/-- The first pass appends to each key's group exactly the processed pairs
mapping to that key. -/
theorem samplesScan_snd_groupOf {κ : Type} [DecidableEq κ] (keyOf : Coord → Option κ)
    (ps : List (ℕ × Coord)) (smp : List (Option ℚ)) (gs : List (κ × List (ℕ × Coord))) (k : κ) :
    groupOf (samplesScan keyOf ps (smp, gs)).2 k =
      groupOf gs k ++ ps.filter (fun p => decide (keyOf p.2 = some k)) := by
  induction ps generalizing smp gs with
  | nil => simp [samplesScan]
  | cons p ps ih =>
    simp only [samplesScan]
    cases hk : keyOf p.2 with
    | none =>
      rw [ih]
      simp [List.filter_cons, hk]
    | some k0 =>
      rw [ih, groupOf_addGroup]
      by_cases he : k0 = k
      · subst he
        simp [List.filter_cons, hk]
      · have : ¬(keyOf p.2 = some k) := by
          rw [hk]
          simp [he]
        simp [List.filter_cons, this, he]

/-- The first pass keeps the group keys distinct. -/
theorem samplesScan_snd_nodupKeys {κ : Type} [DecidableEq κ] (keyOf : Coord → Option κ)
    (ps : List (ℕ × Coord)) (smp : List (Option ℚ)) (gs : List (κ × List (ℕ × Coord)))
    (h : (gs.map Prod.fst).Nodup) : ((samplesScan keyOf ps (smp, gs)).2.map Prod.fst).Nodup := by
  induction ps generalizing smp gs with
  | nil => exact h
  | cons p ps ih =>
    simp only [samplesScan]
    cases keyOf p.2 with
    | none => exact ih _ _ h
    | some k => exact ih _ _ (nodupKeys_addGroup _ _ _ h)

/-- The first pass never creates an empty group. -/
theorem samplesScan_snd_nonempty {κ : Type} [DecidableEq κ] (keyOf : Coord → Option κ)
    (ps : List (ℕ × Coord)) (smp : List (Option ℚ)) (gs : List (κ × List (ℕ × Coord)))
    (h : ∀ g ∈ gs, g.2 ≠ []) : ∀ g ∈ (samplesScan keyOf ps (smp, gs)).2, g.2 ≠ [] := by
  induction ps generalizing smp gs with
  | nil => exact h
  | cons p ps ih =>
    simp only [samplesScan]
    cases keyOf p.2 with
    | none => exact ih _ _ h
    | some k => exact ih _ _ (nonempty_addGroup _ _ _ h)

/-- The first pass leaves positions that never occur in the processed
pairs unchanged. -/
theorem samplesScan_fst_getD_of_not_mem {κ : Type} [DecidableEq κ] (keyOf : Coord → Option κ)
    (ps : List (ℕ × Coord)) (smp : List (Option ℚ)) (gs : List (κ × List (ℕ × Coord)))
    (i : ℕ) (d : Option ℚ) (h : ∀ lc, (i, lc) ∉ ps) :
    (samplesScan keyOf ps (smp, gs)).1.getD i d = smp.getD i d := by
  induction ps generalizing smp gs with
  | nil => rfl
  | cons p ps ih =>
    have hne : p.1 ≠ i := by
      intro he
      exact h p.2 (by rw [← he]; exact List.mem_cons_self _ _)
    have htail : ∀ lc, (i, lc) ∉ ps := fun lc hmem => h lc (List.mem_cons_of_mem _ hmem)
    simp only [samplesScan]
    cases keyOf p.2 with
    | none =>
      rw [ih _ _ htail]
      rw [List.getD_eq_getElem?_getD, List.getElem?_set_ne hne, ← List.getD_eq_getElem?_getD]
    | some k => exact ih _ _ htail

/-- The first pass leaves positions whose occurrences in the processed
pairs all map to a key unchanged. -/
theorem samplesScan_fst_getD_of_keyed {κ : Type} [DecidableEq κ] (keyOf : Coord → Option κ)
    (ps : List (ℕ × Coord)) (smp : List (Option ℚ)) (gs : List (κ × List (ℕ × Coord)))
    (i : ℕ) (d : Option ℚ) (h : ∀ lc, (i, lc) ∈ ps → (keyOf lc).isSome) :
    (samplesScan keyOf ps (smp, gs)).1.getD i d = smp.getD i d := by
  induction ps generalizing smp gs with
  | nil => rfl
  | cons p ps ih =>
    have htail : ∀ lc, (i, lc) ∈ ps → (keyOf lc).isSome :=
      fun lc hmem => h lc (List.mem_cons_of_mem _ hmem)
    simp only [samplesScan]
    cases hk : keyOf p.2 with
    | none =>
      have hne : p.1 ≠ i := by
        intro he
        have := h p.2 (by rw [← he]; exact List.mem_cons_self _ _)
        rw [hk] at this
        simp at this
      rw [ih _ _ htail]
      rw [List.getD_eq_getElem?_getD, List.getElem?_set_ne hne, ← List.getD_eq_getElem?_getD]
    | some k => exact ih _ _ htail

/-- The first pass writes NaN at the position of a processed pair whose
coordinate maps to no key. -/
theorem samplesScan_fst_getD_of_none {κ : Type} [DecidableEq κ] (keyOf : Coord → Option κ)
    (ps : List (ℕ × Coord)) (smp : List (Option ℚ)) (gs : List (κ × List (ℕ × Coord)))
    (i : ℕ) (lc : Coord) (hp : (i, lc) ∈ ps) (hkey : keyOf lc = none)
    (hlen : i < smp.length) (hnd : (ps.map Prod.fst).Nodup) :
    (samplesScan keyOf ps (smp, gs)).1.getD i none = none := by
  induction ps generalizing smp gs with
  | nil => cases hp
  | cons p ps ih =>
    have hnd' : (ps.map Prod.fst).Nodup := (List.nodup_cons.mp (by simpa using hnd)).2
    rcases List.mem_cons.mp hp with hp0 | hps
    · have hi : p.1 = i := by rw [← hp0]
      have hlc : p.2 = lc := by rw [← hp0]
      have hnot : ∀ lc', (i, lc') ∉ ps := by
        intro lc' hmem
        have : i ∈ ps.map Prod.fst := by
          exact (List.mem_map).mpr ⟨(i, lc'), hmem, rfl⟩
        have hhead : p.1 ∉ ps.map Prod.fst := (List.nodup_cons.mp (by simpa using hnd)).1
        rw [hi] at hhead
        exact hhead this
      simp only [samplesScan, hlc, hkey]
      rw [samplesScan_fst_getD_of_not_mem _ _ _ _ _ _ hnot, hi,
        List.getD_eq_getElem?_getD, List.getElem?_set_self (by simpa using hlen)]
      rfl
    · simp only [samplesScan]
      cases keyOf p.2 with
      | none => exact ih _ _ hps (by simpa using hlen) hnd'
      | some k => exact ih _ _ hps hlen hnd'

/-- Filling a group preserves the length of the result slice. -/
theorem fillFold_length (vals : ℕ × Coord → Option ℚ) (vs : List (ℕ × Coord))
    (smp : List (Option ℚ)) : (fillFold vals vs smp).length = smp.length := by
  induction vs generalizing smp with
  | nil => rfl
  | cons v vs ih =>
    simp only [fillFold, List.foldl_cons]
    rw [show List.foldl (fun s p => s.set p.1 (vals p)) (smp.set v.1 (vals v)) vs =
      fillFold vals vs (smp.set v.1 (vals v)) from rfl, ih]
    simp

/-- Filling a group leaves positions outside the group unchanged. -/
theorem fillFold_getD_of_not_mem (vals : ℕ × Coord → Option ℚ) (vs : List (ℕ × Coord))
    (smp : List (Option ℚ)) (i : ℕ) (d : Option ℚ) (h : ∀ p ∈ vs, p.1 ≠ i) :
    (fillFold vals vs smp).getD i d = smp.getD i d := by
  induction vs generalizing smp with
  | nil => rfl
  | cons v vs ih =>
    simp only [fillFold, List.foldl_cons]
    rw [show List.foldl (fun s p => s.set p.1 (vals p)) (smp.set v.1 (vals v)) vs =
      fillFold vals vs (smp.set v.1 (vals v)) from rfl]
    rw [ih _ (fun p hp => h p (List.mem_cons_of_mem _ hp))]
    rw [List.getD_eq_getElem?_getD, List.getElem?_set_ne (h v (List.mem_cons_self _ _)),
      ← List.getD_eq_getElem?_getD]

/-- Filling a group writes the group's value at each of its positions
(positions within a group are distinct). -/
theorem fillFold_getD_of_mem (vals : ℕ × Coord → Option ℚ) (vs : List (ℕ × Coord))
    (smp : List (Option ℚ)) (p : ℕ × Coord) (hnd : (vs.map Prod.fst).Nodup)
    (hp : p ∈ vs) (hlen : p.1 < smp.length) :
    (fillFold vals vs smp).getD p.1 none = vals p := by
  induction vs generalizing smp with
  | nil => cases hp
  | cons v vs ih =>
    have hnd' : (vs.map Prod.fst).Nodup := (List.nodup_cons.mp (by simpa using hnd)).2
    simp only [fillFold, List.foldl_cons]
    rw [show List.foldl (fun s p => s.set p.1 (vals p)) (smp.set v.1 (vals v)) vs =
      fillFold vals vs (smp.set v.1 (vals v)) from rfl]
    rcases List.mem_cons.mp hp with hp0 | hps
    · subst hp0
      have hnot : ∀ q ∈ vs, q.1 ≠ p.1 := by
        intro q hq he
        have : p.1 ∈ vs.map Prod.fst := by
          rw [← he]
          exact (List.mem_map).mpr ⟨q, hq, rfl⟩
        exact (List.nodup_cons.mp (by simpa using hnd)).1 this
      rw [fillFold_getD_of_not_mem _ _ _ _ _ hnot]
      rw [List.getD_eq_getElem?_getD, List.getElem?_set_self (by simpa using hlen)]
      rfl
    · exact ih _ hnd' hps (by simpa using hlen)

/-- In a well-formed group list, the head group holds exactly the pairs
mapping to its key. -/
theorem GroupsOk.head_eq {κ : Type} [DecidableEq κ] {keyOf : Coord → Option κ}
    {ps : List (ℕ × Coord)} {k : κ} {vs : List (ℕ × Coord)}
    {rest : List (κ × List (ℕ × Coord))} (h : GroupsOk keyOf ps ((k, vs) :: rest)) :
    vs = ps.filter (fun p => decide (keyOf p.2 = some k)) := by
  have hc := h.char k
  simpa [groupOf] using hc

/-- Removing the head group leaves a well-formed group list over the pairs
not mapping to the head key. -/
theorem GroupsOk.tail_ok {κ : Type} [DecidableEq κ] {keyOf : Coord → Option κ}
    {ps : List (ℕ × Coord)} {k : κ} {vs : List (ℕ × Coord)}
    {rest : List (κ × List (ℕ × Coord))} (h : GroupsOk keyOf ps ((k, vs) :: rest)) :
    GroupsOk keyOf (ps.filter (fun p => !decide (keyOf p.2 = some k))) rest := by
  have hnodup := h.nodupKeys
  simp only [List.map_cons] at hnodup
  constructor
  · exact (List.nodup_cons.mp hnodup).2
  · intro k'
    by_cases he : k' = k
    · subst he
      rw [groupOf_eq_nil_of_not_mem _ _ (List.nodup_cons.mp hnodup).1]
      symm
      rw [List.filter_eq_nil_iff]
      intro p hp
      have hmem := List.mem_filter.mp hp
      simp only [Bool.not_eq_eq_eq_not, Bool.not_true, decide_eq_false_iff_not] at hmem
      simp [hmem.2]
    · have hstep : groupOf rest k' = groupOf ((k, vs) :: rest) k' := by
        have hne : ¬(k = k') := fun hh => he hh.symm
        simp [groupOf, hne]
      rw [hstep, h.char k', List.filter_filter]
      apply List.filter_congr
      intro p hp
      by_cases hk' : keyOf p.2 = some k'
      · have : ¬(keyOf p.2 = some k) := by
          rw [hk']
          simp [he]
        simp [hk', this, he]
      · simp [hk']
  · intro g hg
    exact h.nonempty g (List.mem_cons_of_mem _ hg)

/-- In a list of pairs with distinct first components, the first component
determines the pair. -/
theorem nodup_fst_eq {α : Type} (ps : List (ℕ × α)) (hnd : (ps.map Prod.fst).Nodup)
    (p q : ℕ × α) (hp : p ∈ ps) (hq : q ∈ ps) (he : p.1 = q.1) : p = q := by
  induction ps with
  | nil => cases hp
  | cons r ps ih =>
    rw [List.map_cons] at hnd
    have hnd' := List.nodup_cons.mp hnd
    rcases List.mem_cons.mp hp with hp0 | hps <;> rcases List.mem_cons.mp hq with hq0 | hqs
    · rw [hp0, hq0]
    · exfalso
      apply hnd'.1
      rw [hp0] at he
      rw [he]
      exact (List.mem_map).mpr ⟨q, hqs, rfl⟩
    · exfalso
      apply hnd'.1
      rw [hq0] at he
      rw [← he]
      exact (List.mem_map).mpr ⟨p, hps, rfl⟩
    · exact ih hnd'.2 hps hqs

/-- Pointwise characterization of the per-group loop of
`GeoTIFFTile.Samples` when it succeeds: every pair with a key gets the
sample of its tile, everything else is untouched. -/
theorem samplesLoop_ok_spec (f : GeoTIFFTile) (gs : List (TileCoord × List (ℕ × Coord)))
    (ps : List (ℕ × Coord)) (smp out : List (Option ℚ))
    (hGO : GroupsOk f.localTileCoord ps gs)
    (hnd : (ps.map Prod.fst).Nodup)
    (hlt : ∀ p ∈ ps, p.1 < smp.length)
    (hok : f.samplesLoop gs smp = .ok out) :
    out.length = smp.length ∧
    (∀ p ∈ ps, ∀ k, f.localTileCoord p.2 = some k →
      ∃ ts, f.tiles k = .ok ts ∧ out.getD p.1 none = f.tileSample ts p.2) ∧
    (∀ p ∈ ps, f.localTileCoord p.2 = none → out.getD p.1 none = smp.getD p.1 none) ∧
    (∀ i, (∀ lc, (i, lc) ∉ ps) → out.getD i none = smp.getD i none) := by
  induction gs generalizing ps smp with
  | nil =>
    simp only [GeoTIFFTile.samplesLoop, Except.ok.injEq] at hok
    subst hok
    refine ⟨rfl, ?_, fun p _ _ => rfl, fun i _ => rfl⟩
    intro p hp k hkey
    exfalso
    have hmem : p ∈ ps.filter (fun p => decide (f.localTileCoord p.2 = some k)) :=
      List.mem_filter.mpr ⟨hp, by simp [hkey]⟩
    rw [← hGO.char k] at hmem
    simp [groupOf] at hmem
  | cons g gs ih =>
    rcases g with ⟨k, vs⟩
    simp only [GeoTIFFTile.samplesLoop] at hok
    cases htiles : f.tiles k with
    | error e =>
      rw [htiles] at hok
      cases hok
    | ok ts =>
      rw [htiles] at hok
      have hvs := hGO.head_eq
      have hGO' := hGO.tail_ok
      have hsubfst : List.Sublist
          ((ps.filter (fun p => !decide (f.localTileCoord p.2 = some k))).map Prod.fst)
          (ps.map Prod.fst) := List.Sublist.map Prod.fst (List.filter_sublist _)
      have hnd' := hnd.sublist hsubfst
      have hvsfst : (vs.map Prod.fst).Nodup := by
        rw [hvs]
        exact hnd.sublist (List.Sublist.map Prod.fst (List.filter_sublist _))
      have hlt' : ∀ p ∈ ps.filter (fun p => !decide (f.localTileCoord p.2 = some k)),
          p.1 < (fillFold (fun p => f.tileSample ts p.2) vs smp).length := by
        intro p hp
        rw [fillFold_length]
        exact hlt p (List.mem_filter.mp hp).1
      obtain ⟨ihlen, ih2, ih3, ih4⟩ := ih _ _ hGO' hnd' hlt' hok
      refine ⟨by rw [ihlen, fillFold_length], ?_, ?_, ?_⟩
      · intro p hp k0 hkey
        by_cases hx : k0 = k
        · subst hx
          have hpvs : p ∈ vs := by
            rw [hvs]
            exact List.mem_filter.mpr ⟨hp, by simp [hkey]⟩
          have hnotps' : ∀ lc, (p.1, lc) ∉
              ps.filter (fun p => !decide (f.localTileCoord p.2 = some k0)) := by
            intro lc hmem
            have hmemps := List.mem_filter.mp hmem
            have hpair : ((p.1, lc) : ℕ × Coord) = p :=
              nodup_fst_eq ps hnd _ p hmemps.1 hp rfl
            have hflt := hmemps.2
            rw [show ((p.1, lc) : ℕ × Coord).2 = p.2 from by rw [hpair]] at hflt
            rw [hkey] at hflt
            simp at hflt
          rw [ih4 p.1 hnotps',
            fillFold_getD_of_mem _ _ _ p hvsfst hpvs (hlt p hp)]
          exact ⟨ts, htiles, rfl⟩
        · have hp' : p ∈ ps.filter (fun p => !decide (f.localTileCoord p.2 = some k)) :=
            List.mem_filter.mpr ⟨hp, by simp [hkey, hx]⟩
          exact ih2 p hp' k0 hkey
      · intro p hp hkey
        have hp' : p ∈ ps.filter (fun p => !decide (f.localTileCoord p.2 = some k)) :=
          List.mem_filter.mpr ⟨hp, by simp [hkey]⟩
        rw [ih3 p hp' hkey]
        apply fillFold_getD_of_not_mem
        intro q hq he
        have hqps : q ∈ ps := by
          rw [hvs] at hq
          exact (List.mem_filter.mp hq).1
        have hqkey : f.localTileCoord q.2 = some k := by
          rw [hvs] at hq
          have := (List.mem_filter.mp hq).2
          simpa using this
        have : q = p := nodup_fst_eq ps hnd q p hqps hp he
        rw [this] at hqkey
        rw [hkey] at hqkey
        cases hqkey
      · intro i hnot
        have hnot' : ∀ lc, (i, lc) ∉
            ps.filter (fun p => !decide (f.localTileCoord p.2 = some k)) :=
          fun lc hm => hnot lc (List.mem_filter.mp hm).1
        rw [ih4 i hnot']
        apply fillFold_getD_of_not_mem
        intro q hq he
        apply hnot q.2
        have hqps : q ∈ ps := by
          rw [hvs] at hq
          exact (List.mem_filter.mp hq).1
        have : ((i, q.2) : ℕ × Coord) = q := by
          rw [← he]
        rw [this]
        exact hqps

/-- The per-group loop fails exactly when the tile fetch of some processed
pair's key fails. -/
theorem samplesLoop_error_iff (f : GeoTIFFTile) (gs : List (TileCoord × List (ℕ × Coord)))
    (ps : List (ℕ × Coord)) (smp : List (Option ℚ))
    (hGO : GroupsOk f.localTileCoord ps gs) :
    (∃ e, f.samplesLoop gs smp = .error e) ↔
      (∃ p ∈ ps, ∃ k, f.localTileCoord p.2 = some k ∧ ∃ e, f.tiles k = .error e) := by
  induction gs generalizing ps smp with
  | nil =>
    constructor
    · rintro ⟨e, he⟩
      simp [GeoTIFFTile.samplesLoop] at he
    · rintro ⟨p, hp, k, hkey, e, _⟩
      exfalso
      have hmem : p ∈ ps.filter (fun p => decide (f.localTileCoord p.2 = some k)) :=
        List.mem_filter.mpr ⟨hp, by simp [hkey]⟩
      rw [← hGO.char k] at hmem
      simp [groupOf] at hmem
  | cons g gs ih =>
    rcases g with ⟨k, vs⟩
    have hvs := hGO.head_eq
    have hGO' := hGO.tail_ok
    constructor
    · rintro ⟨e, he⟩
      simp only [GeoTIFFTile.samplesLoop] at he
      cases htiles : f.tiles k with
      | error e0 =>
        have hne := hGO.nonempty (k, vs) (List.mem_cons_self _ _)
        obtain ⟨p, hpvs⟩ := List.exists_mem_of_ne_nil vs hne
        have hpf : p ∈ ps.filter (fun p => decide (f.localTileCoord p.2 = some k)) := by
          rw [← hvs]
          exact hpvs
        have hmem := List.mem_filter.mp hpf
        exact ⟨p, hmem.1, k, by simpa using hmem.2, e0, htiles⟩
      | ok ts =>
        rw [htiles] at he
        obtain ⟨p, hp', k0, hkey, e0, ht⟩ := (ih _ _ hGO').mp ⟨e, he⟩
        exact ⟨p, (List.mem_filter.mp hp').1, k0, hkey, e0, ht⟩
    · rintro ⟨p, hp, k0, hkey, e0, htiles0⟩
      simp only [GeoTIFFTile.samplesLoop]
      cases htiles : f.tiles k with
      | error e => exact ⟨e, rfl⟩
      | ok ts =>
        by_cases hx : k0 = k
        · subst hx
          rw [htiles] at htiles0
          cases htiles0
        · have hp' : p ∈ ps.filter (fun p => !decide (f.localTileCoord p.2 = some k)) :=
            List.mem_filter.mpr ⟨hp, by simp [hkey, hx]⟩
          exact (ih _ _ hGO').mpr ⟨p, hp', k0, hkey, e0, htiles0⟩

/-- The enumerated local coordinates have distinct indexes. -/
theorem enum_fst_nodup {α : Type} (l : List α) : (l.enum.map Prod.fst).Nodup := by
  rw [List.enum_eq_enumFrom, List.enumFrom_map_fst, ← List.range_eq_range']
  exact List.nodup_range _

/-- The first pass of `GeoTIFFTile.Samples` produces a well-formed group
list. -/
theorem groupsOk_samplesScan {κ : Type} [DecidableEq κ] (keyOf : Coord → Option κ)
    (ps : List (ℕ × Coord)) (smp : List (Option ℚ)) :
    GroupsOk keyOf ps (samplesScan keyOf ps (smp, [])).2 := by
  constructor
  · exact samplesScan_snd_nodupKeys keyOf ps smp [] (by simp)
  · intro k
    rw [samplesScan_snd_groupOf]
    simp [groupOf]
  · exact samplesScan_snd_nonempty keyOf ps smp [] (by simp)

/-- Characterization of a failing `GeoTIFFTile.Sample`: the local tile
fetch failed. -/
theorem Sample_error_char (f : GeoTIFFTile) (c : Coord) :
    (∃ e, f.Sample c = .error e) ↔
      (∃ k, f.localTileCoord (f.localCoord c) = some k ∧ ∃ e, f.tiles k = .error e) := by
  constructor
  · rintro ⟨e, he⟩
    simp only [GeoTIFFTile.Sample] at he
    split at he
    · cases he
    · rename_i k hk
      split at he
      · rename_i e0 ht
        exact ⟨k, hk, e0, ht⟩
      · cases he
  · rintro ⟨k, hkey, e, ht⟩
    refine ⟨e, ?_⟩
    simp only [GeoTIFFTile.Sample, hkey, ht]

/-- When the batched decoder `Samples` succeeds, the result has one entry
per coordinate and each entry is the value `Sample` returns for that
coordinate. -/
theorem Samples_ok_pointwise (f : GeoTIFFTile) (coords : List Coord)
    (out : List (Option ℚ)) (hok : f.Samples coords = .ok out) :
    out.length = coords.length ∧
    ∀ i, (h : i < coords.length) → f.Sample (coords.get ⟨i, h⟩) = .ok (out.getD i none) := by
  simp only [GeoTIFFTile.Samples] at hok
  set lcs := coords.map f.localCoord with hlcs
  have hps_nd : ((lcs.enum).map Prod.fst).Nodup := enum_fst_nodup lcs
  have hGO := groupsOk_samplesScan f.localTileCoord lcs.enum
    (List.replicate coords.length (some 0))
  have hscanlen : (samplesScan f.localTileCoord lcs.enum
      (List.replicate coords.length (some 0), [])).1.length = coords.length := by
    rw [samplesScan_fst_length]
    simp
  have hlt : ∀ p ∈ lcs.enum, p.1 < (samplesScan f.localTileCoord lcs.enum
      (List.replicate coords.length (some 0), [])).1.length := by
    intro p hp
    rw [hscanlen]
    have := List.mem_enum_iff_getElem?.mp hp
    have hlen := List.getElem?_eq_some_iff.mp this
    obtain ⟨hl, _⟩ := hlen
    simpa [hlcs] using hl
  obtain ⟨hlen, h2, h3, h4⟩ := samplesLoop_ok_spec f _ _ _ _ hGO hps_nd hlt hok
  have houtlen : out.length = coords.length := by rw [hlen, hscanlen]
  refine ⟨houtlen, ?_⟩
  intro i hi
  have hilcs : i < lcs.length := by simpa [hlcs] using hi
  have hpair : ((i, lcs.get ⟨i, hilcs⟩) : ℕ × Coord) ∈ lcs.enum := by
    rw [List.mk_mem_enum_iff_getElem?]
    simp [List.getElem?_eq_getElem hilcs]
  have hlc : lcs.get ⟨i, hilcs⟩ = f.localCoord (coords.get ⟨i, hi⟩) := by
    simp [hlcs]
  cases hkey : f.localTileCoord (lcs.get ⟨i, hilcs⟩) with
  | none =>
    have hout : out.getD i none = (samplesScan f.localTileCoord lcs.enum
        (List.replicate coords.length (some 0), [])).1.getD i none := h3 _ hpair hkey
    have hinit : (samplesScan f.localTileCoord lcs.enum
        (List.replicate coords.length (some 0), [])).1.getD i none = none := by
      apply samplesScan_fst_getD_of_none f.localTileCoord lcs.enum _ _ i
        (lcs.get ⟨i, hilcs⟩) hpair hkey
      · simpa using hi
      · exact hps_nd
    simp only [GeoTIFFTile.Sample]
    rw [show f.localCoord (coords.get ⟨i, hi⟩) = lcs.get ⟨i, hilcs⟩ from hlc.symm]
    simp only [hkey]
    rw [hout, hinit]
  | some k =>
    obtain ⟨ts, hts, hval0⟩ := h2 _ hpair k hkey
    have hval : out.getD i none = f.tileSample ts (lcs.get ⟨i, hilcs⟩) := hval0
    simp only [GeoTIFFTile.Sample]
    rw [show f.localCoord (coords.get ⟨i, hi⟩) = lcs.get ⟨i, hilcs⟩ from hlc.symm]
    simp only [hkey, hts]
    rw [hval]

/-- The batched decoder `Samples` fails exactly when some per-coordinate
`Sample` fails. -/
theorem Samples_error_iff_forSample (f : GeoTIFFTile) (coords : List Coord) :
    (∃ e, f.Samples coords = .error e) ↔ ∃ c ∈ coords, ∃ e, f.Sample c = .error e := by
  simp only [GeoTIFFTile.Samples]
  set lcs := coords.map f.localCoord with hlcs
  have hGO := groupsOk_samplesScan f.localTileCoord lcs.enum
    (List.replicate coords.length (some 0))
  rw [samplesLoop_error_iff f _ _ _ hGO]
  constructor
  · rintro ⟨p, hp, k, hkey, e, ht⟩
    have hget := List.mem_enum_iff_getElem?.mp hp
    obtain ⟨hl, hveq⟩ := List.getElem?_eq_some_iff.mp hget
    have hl' : p.1 < coords.length := by simpa [hlcs] using hl
    refine ⟨coords.get ⟨p.1, hl'⟩, List.get_mem coords _ _, ?_⟩
    rw [Sample_error_char]
    refine ⟨k, ?_, e, ht⟩
    have : lcs.get ⟨p.1, hl⟩ = f.localCoord (coords.get ⟨p.1, hl'⟩) := by simp [hlcs]
    rw [← this]
    rw [show lcs.get ⟨p.1, hl⟩ = p.2 from by simpa using hveq]
    exact hkey
  · rintro ⟨c, hc, he⟩
    obtain ⟨k, hkey, e, ht⟩ := (Sample_error_char f c).mp he
    obtain ⟨i, hi, hceq⟩ := List.mem_iff_getElem.mp hc
    have hilcs : i < lcs.length := by simpa [hlcs] using hi
    refine ⟨(i, lcs.get ⟨i, hilcs⟩), ?_, k, ?_, e, ht⟩
    · rw [List.mk_mem_enum_iff_getElem?]
      simp [List.getElem?_eq_getElem hilcs]
    · have : lcs.get ⟨i, hilcs⟩ = f.localCoord c := by
        simp only [hlcs, List.get_eq_getElem, List.getElem_map]
        rw [hceq]
      rw [this]
      exact hkey

/-- Looking up a marked-missing tile touches neither the state nor the
filesystem. -/
theorem getTileCached_of_missing (s : GeoTIFFTileSet) (st : SetState) (tc : TileCoord)
    (h : tc ∈ st.missingTiles) : s.getTileCached st tc = (.ok none, st, []) := by
  simp [GeoTIFFTileSet.getTileCached, h]

/-- One cached lookup probes the filesystem at most once, and only for its
own tile coordinate. -/
theorem getTileCached_probes (s : GeoTIFFTileSet) (st : SetState) (tc : TileCoord) :
    (s.getTileCached st tc).2.2 = [] ∨ (s.getTileCached st tc).2.2 = [tc] := by
  by_cases h1 : tc ∈ st.missingTiles
  · simp [GeoTIFFTileSet.getTileCached, h1]
  · simp only [GeoTIFFTileSet.getTileCached, if_neg h1]
    cases cacheGet st.geoTIFFTileCache tc with
    | some t => simp
    | none =>
      cases s.newTile (s.tileFilenameFunc tc) with
      | error e => by_cases he : e = Err.notExist <;> simp [he]
      | ok t => simp

/-- A cached lookup never removes a missing marker. -/
theorem getTileCached_missing_mono (s : GeoTIFFTileSet) (st : SetState) (tc tc0 : TileCoord)
    (h : tc0 ∈ st.missingTiles) : tc0 ∈ ((s.getTileCached st tc).2.1).missingTiles := by
  by_cases h1 : tc ∈ st.missingTiles
  · simpa [GeoTIFFTileSet.getTileCached, h1] using h
  · simp only [GeoTIFFTileSet.getTileCached, if_neg h1]
    cases cacheGet st.geoTIFFTileCache tc with
    | some t => exact h
    | none =>
      cases s.newTile (s.tileFilenameFunc tc) with
      | error e =>
        by_cases he : e = Err.notExist
        · simp [he]
          exact Or.inr h
        · simp [he]
          exact h
      | ok t => exact h

/-- A cached lookup changes the state only at its own tile coordinate. -/
theorem getTileCached_state_local (s : GeoTIFFTileSet) (st : SetState) (tc tc' : TileCoord)
    (hne : tc' ≠ tc) : ((s.getTileCached st tc).2.1).agreeAt st tc' := by
  have hnn : ¬(tc = tc') := fun hh => hne hh.symm
  by_cases h1 : tc ∈ st.missingTiles
  · rw [getTileCached_of_missing s st tc h1]
    exact ⟨Iff.rfl, rfl⟩
  · cases hc : cacheGet st.geoTIFFTileCache tc with
    | some t =>
      have hred : s.getTileCached st tc = (.ok t, st, []) := by
        simp [GeoTIFFTileSet.getTileCached, h1, hc]
      rw [hred]
      exact ⟨Iff.rfl, rfl⟩
    | none =>
      cases hn : s.newTile (s.tileFilenameFunc tc) with
      | error e =>
        by_cases he : e = Err.notExist
        · have hred : s.getTileCached st tc =
              (.ok none, ⟨tc :: st.missingTiles, (tc, none) :: st.geoTIFFTileCache⟩, [tc]) := by
            simp [GeoTIFFTileSet.getTileCached, h1, hc, hn, he]
          rw [hred]
          refine ⟨?_, ?_⟩
          · constructor
            · intro hmem
              rcases List.mem_cons.mp hmem with hh | hh
              · exact absurd hh hne
              · exact hh
            · exact fun hh => List.mem_cons_of_mem _ hh
          · simp [cacheGet, hnn]
        · have hred : s.getTileCached st tc = (.error e, st, [tc]) := by
            simp [GeoTIFFTileSet.getTileCached, h1, hc, hn, he]
          rw [hred]
          exact ⟨Iff.rfl, rfl⟩
      | ok t =>
        have hred : s.getTileCached st tc =
            (.ok (some t), ⟨st.missingTiles, (tc, some t) :: st.geoTIFFTileCache⟩, [tc]) := by
          simp [GeoTIFFTileSet.getTileCached, h1, hc, hn]
        rw [hred]
        refine ⟨Iff.rfl, ?_⟩
        simp [cacheGet, hnn]

/-- The observable result of a cached lookup depends only on the state's
information at its tile coordinate. -/
theorem getTileCached_congr (s : GeoTIFFTileSet) (st1 st2 : SetState) (tc : TileCoord)
    (h : st1.agreeAt st2 tc) :
    (s.getTileCached st1 tc).1 = (s.getTileCached st2 tc).1 ∧
    (s.getTileCached st1 tc).2.2 = (s.getTileCached st2 tc).2.2 := by
  obtain ⟨hm, hc⟩ := h
  by_cases h1 : tc ∈ st1.missingTiles
  · simp [GeoTIFFTileSet.getTileCached, h1, hm.mp h1]
  · have h2 : tc ∉ st2.missingTiles := fun hh => h1 (hm.mpr hh)
    simp only [GeoTIFFTileSet.getTileCached, if_neg h1, if_neg h2, ← hc]
    cases cacheGet st1.geoTIFFTileCache tc with
    | some t => simp
    | none =>
      cases s.newTile (s.tileFilenameFunc tc) with
      | error e => by_cases he : e = Err.notExist <;> simp [he]
      | ok t => simp

/-- Scattering a group's batched results equals filling with the
per-pair values they correspond to. -/
theorem scatterFold_eq_fillFold (vs : List (ℕ × Coord)) (ls : List (Option ℚ))
    (g : ℕ × Coord → Option ℚ) (hlen : ls.length = vs.length)
    (hval : ∀ j, (h : j < vs.length) → ls.getD j none = g (vs.get ⟨j, h⟩))
    (smp : List (Option ℚ)) :
    scatterFold (vs.map Prod.fst) ls smp = fillFold g vs smp := by
  induction vs generalizing ls smp with
  | nil =>
    cases ls with
    | nil => rfl
    | cons a l => simp at hlen
  | cons v vs ih =>
    cases ls with
    | nil => simp at hlen
    | cons a ls' =>
      have ha : a = g v := by
        have := hval 0 (by simp)
        simpa using this
      simp only [scatterFold, fillFold, List.map_cons, List.zip_cons_cons, List.foldl_cons]
      rw [ha]
      exact ih ls' (by simpa using hlen)
        (fun j h => by simpa using hval (j+1) (by simpa using h)) (smp.set v.1 (g v))

/-- The router loop never removes a missing marker. -/
theorem tsLoop_missing_mono (s : GeoTIFFTileSet) (gs : List (TileCoord × List (ℕ × Coord)))
    (smp : List (Option ℚ)) (st : SetState) (tc0 : TileCoord) (h : tc0 ∈ st.missingTiles) :
    tc0 ∈ ((s.samplesLoop gs smp st).2.1).missingTiles := by
  induction gs generalizing smp st with
  | nil => exact h
  | cons g gs ih =>
    rcases hres : s.getTileCached st g.1 with ⟨res, st1, pr⟩
    have hmono : tc0 ∈ st1.missingTiles := by
      have := getTileCached_missing_mono s st g.1 tc0 h
      rw [hres] at this
      exact this
    cases res with
    | error e =>
      simp only [GeoTIFFTileSet.samplesLoop, hres]
      exact hmono
    | ok otile =>
      cases otile with
      | none =>
        simp only [GeoTIFFTileSet.samplesLoop, hres]
        exact ih _ st1 hmono
      | some tile =>
        cases hsmp : tile.Samples (g.2.map Prod.snd) with
        | error e =>
          simp only [GeoTIFFTileSet.samplesLoop, hres, hsmp]
          exact hmono
        | ok ls =>
          simp only [GeoTIFFTileSet.samplesLoop, hres, hsmp]
          exact ih _ st1 hmono

/-- Once a tile coordinate is marked missing, the router loop never probes
the filesystem for it again. -/
theorem tsLoop_no_probe_of_missing (s : GeoTIFFTileSet)
    (gs : List (TileCoord × List (ℕ × Coord))) (smp : List (Option ℚ)) (st : SetState)
    (tc0 : TileCoord) (h : tc0 ∈ st.missingTiles) :
    tc0 ∉ (s.samplesLoop gs smp st).2.2 := by
  induction gs generalizing smp st with
  | nil => simp [GeoTIFFTileSet.samplesLoop]
  | cons g gs ih =>
    rcases hres : s.getTileCached st g.1 with ⟨res, st1, pr⟩
    have hmono : tc0 ∈ st1.missingTiles := by
      have := getTileCached_missing_mono s st g.1 tc0 h
      rw [hres] at this
      exact this
    have hpr : tc0 ∉ pr := by
      by_cases hg : g.1 = tc0
      · subst hg
        have := getTileCached_of_missing s st g.1 h
        rw [hres] at this
        have hpr' : pr = [] := congrArg (fun t => t.2.2) this
        simp [hpr']
      · have := getTileCached_probes s st g.1
        rw [hres] at this
        rcases this with hh | hh <;> simp only at hh <;> subst hh
        · simp
        · simp
          exact fun hx => hg hx.symm
    cases res with
    | error e =>
      simp only [GeoTIFFTileSet.samplesLoop, hres]
      exact hpr
    | ok otile =>
      cases otile with
      | none =>
        have h2 := ih (fillFold (fun _ => none) g.2 smp) st1 hmono
        simp only [GeoTIFFTileSet.samplesLoop, hres, List.mem_append]
        rintro (hx | hx)
        · exact hpr hx
        · exact h2 hx
      | some tile =>
        cases hsmp : tile.Samples (g.2.map Prod.snd) with
        | error e =>
          simp only [GeoTIFFTileSet.samplesLoop, hres, hsmp]
          exact hpr
        | ok ls =>
          have h2 := ih (scatterFold (g.2.map Prod.fst) ls smp) st1 hmono
          simp only [GeoTIFFTileSet.samplesLoop, hres, hsmp, List.mem_append]
          rintro (hx | hx)
          · exact hpr hx
          · exact h2 hx

/-- A successful decoder `Sample` determines `sampleValD`. -/
theorem sampleValD_of_ok (t : GeoTIFFTile) (c : Coord) (v : Option ℚ)
    (h : t.Sample c = .ok v) : sampleValD t c = v := by
  simp [sampleValD, h]

/-- Pointwise characterization of the router loop when it succeeds, read
against the initial state `st0`: every pair whose coordinate has a backing
tile coordinate gets the single-coordinate evaluation from `st0`, and
everything else is untouched.  The running state `st` must agree with
`st0` at every pending group key. -/
theorem tsLoop_ok_spec (s : GeoTIFFTileSet) (gs : List (TileCoord × List (ℕ × Coord)))
    (ps : List (ℕ × Coord)) (smp out : List (Option ℚ)) (st st0 stf : SetState)
    (pr : List TileCoord)
    (hGO : GroupsOk s.tileCoordFunc ps gs)
    (hnd : (ps.map Prod.fst).Nodup)
    (hlt : ∀ p ∈ ps, p.1 < smp.length)
    (hagree : ∀ g ∈ gs, SetState.agreeAt st st0 g.1)
    (hok : s.samplesLoop gs smp st = (.ok out, stf, pr)) :
    out.length = smp.length ∧
    (∀ p ∈ ps, ∀ tc, s.tileCoordFunc p.2 = some tc →
      s.evalAt st0 p.2 = .ok (out.getD p.1 none)) ∧
    (∀ p ∈ ps, s.tileCoordFunc p.2 = none → out.getD p.1 none = smp.getD p.1 none) ∧
    (∀ i, (∀ c, (i, c) ∉ ps) → out.getD i none = smp.getD i none) := by
  induction gs generalizing ps smp st stf pr with
  | nil =>
    simp only [GeoTIFFTileSet.samplesLoop, Prod.mk.injEq, Except.ok.injEq] at hok
    obtain ⟨rfl, -, -⟩ := hok
    refine ⟨rfl, ?_, fun p _ _ => rfl, fun i _ => rfl⟩
    intro p hp tc hkey
    exfalso
    have hmem : p ∈ ps.filter (fun p => decide (s.tileCoordFunc p.2 = some tc)) :=
      List.mem_filter.mpr ⟨hp, by simp [hkey]⟩
    rw [← hGO.char tc] at hmem
    simp [groupOf] at hmem
  | cons g gs ih =>
    rcases g with ⟨k0, vs⟩
    rcases hres : s.getTileCached st k0 with ⟨res, st1, pr1⟩
    have hagreehead : SetState.agreeAt st st0 k0 := hagree (k0, vs) (List.mem_cons_self _ _)
    have hcongr := getTileCached_congr s st st0 k0 hagreehead
    have hval0 : (s.getTileCached st0 k0).1 = res := by
      rw [← hcongr.1, hres]
    have hvs := hGO.head_eq
    have hGO' := hGO.tail_ok
    have hnd' : ((ps.filter (fun p => !decide (s.tileCoordFunc p.2 = some k0))).map
        Prod.fst).Nodup :=
      hnd.sublist (List.Sublist.map Prod.fst (List.filter_sublist _))
    have hvsfst : (vs.map Prod.fst).Nodup := by
      rw [hvs]
      exact hnd.sublist (List.Sublist.map Prod.fst (List.filter_sublist _))
    have hkeynodup := hGO.nodupKeys
    simp only [List.map_cons] at hkeynodup
    have hagree' : ∀ g ∈ gs, SetState.agreeAt st1 st0 g.1 := by
      intro g hg
      have hgne : g.1 ≠ k0 := by
        intro he
        apply (List.nodup_cons.mp hkeynodup).1
        rw [← he]
        exact (List.mem_map).mpr ⟨g, hg, rfl⟩
      have hloc := getTileCached_state_local s st k0 g.1 hgne
      rw [hres] at hloc
      have hstep := hagree g (List.mem_cons_of_mem _ hg)
      exact ⟨hloc.1.trans hstep.1, hloc.2.trans hstep.2⟩
    cases res with
    | error e =>
      simp only [GeoTIFFTileSet.samplesLoop, hres, Prod.mk.injEq] at hok
      exact absurd hok.1 (by simp)
    | ok otile =>
      cases otile with
      | none =>
        simp only [GeoTIFFTileSet.samplesLoop, hres] at hok
        rcases hrec : s.samplesLoop gs (fillFold (fun _ => none) vs smp) st1 with
          ⟨res2, st2, pr2⟩
        rw [hrec] at hok
        simp only [Prod.mk.injEq] at hok
        obtain ⟨h1, h2, h3⟩ := hok
        rw [h1] at hrec
        have hlt' : ∀ p ∈ ps.filter (fun p => !decide (s.tileCoordFunc p.2 = some k0)),
            p.1 < (fillFold (fun _ => none) vs smp).length := by
          intro p hp
          rw [fillFold_length]
          exact hlt p (List.mem_filter.mp hp).1
        obtain ⟨ihlen, ih2, ih3, ih4⟩ := ih _ _ _ _ _ hGO' hnd' hlt' hagree' hrec
        refine ⟨by rw [ihlen, fillFold_length], ?_, ?_, ?_⟩
        · intro p hp tc hkey
          by_cases hx : tc = k0
          · subst hx
            have hpvs : p ∈ vs := by
              rw [hvs]
              exact List.mem_filter.mpr ⟨hp, by simp [hkey]⟩
            have hnotps' : ∀ c, (p.1, c) ∉
                ps.filter (fun p => !decide (s.tileCoordFunc p.2 = some tc)) := by
              intro c hmem
              have hmemps := List.mem_filter.mp hmem
              have hpair : ((p.1, c) : ℕ × Coord) = p :=
                nodup_fst_eq ps hnd _ p hmemps.1 hp rfl
              have hflt := hmemps.2
              rw [show ((p.1, c) : ℕ × Coord).2 = p.2 from by rw [hpair]] at hflt
              rw [hkey] at hflt
              simp at hflt
            have hout : out.getD p.1 none = none := by
              rw [ih4 p.1 hnotps',
                fillFold_getD_of_mem _ _ _ p hvsfst hpvs (hlt p hp)]
            simp only [GeoTIFFTileSet.evalAt, hkey, hval0, hout]
          · have hp' : p ∈ ps.filter (fun p => !decide (s.tileCoordFunc p.2 = some k0)) :=
              List.mem_filter.mpr ⟨hp, by simp [hkey, hx]⟩
            exact ih2 p hp' tc hkey
        · intro p hp hkey
          have hp' : p ∈ ps.filter (fun p => !decide (s.tileCoordFunc p.2 = some k0)) :=
            List.mem_filter.mpr ⟨hp, by simp [hkey]⟩
          rw [ih3 p hp' hkey]
          apply fillFold_getD_of_not_mem
          intro q hq he
          have hqps : q ∈ ps := by
            rw [hvs] at hq
            exact (List.mem_filter.mp hq).1
          have hqkey : s.tileCoordFunc q.2 = some k0 := by
            rw [hvs] at hq
            simpa using (List.mem_filter.mp hq).2
          have : q = p := nodup_fst_eq ps hnd q p hqps hp he
          rw [this, hkey] at hqkey
          cases hqkey
        · intro i hnot
          have hnot' : ∀ c, (i, c) ∉
              ps.filter (fun p => !decide (s.tileCoordFunc p.2 = some k0)) :=
            fun c hm => hnot c (List.mem_filter.mp hm).1
          rw [ih4 i hnot']
          apply fillFold_getD_of_not_mem
          intro q hq he
          apply hnot q.2
          have hqps : q ∈ ps := by
            rw [hvs] at hq
            exact (List.mem_filter.mp hq).1
          have : ((i, q.2) : ℕ × Coord) = q := by rw [← he]
          rw [this]
          exact hqps
      | some tile =>
        cases hsmp : tile.Samples (vs.map Prod.snd) with
        | error e =>
          simp only [GeoTIFFTileSet.samplesLoop, hres, hsmp, Prod.mk.injEq] at hok
          exact absurd hok.1 (by simp)
        | ok ls =>
          simp only [GeoTIFFTileSet.samplesLoop, hres, hsmp] at hok
          obtain ⟨hlslen, hpt⟩ := Samples_ok_pointwise tile (vs.map Prod.snd) ls hsmp
          have hscatter : scatterFold (vs.map Prod.fst) ls smp =
              fillFold (fun p => sampleValD tile p.2) vs smp := by
            apply scatterFold_eq_fillFold
            · rw [hlslen]
              simp
            · intro j hj
              have hj' : j < (vs.map Prod.snd).length := by simpa using hj
              have := hpt j hj'
              have hmapget : (vs.map Prod.snd).get ⟨j, hj'⟩ = (vs.get ⟨j, hj⟩).2 := by
                simp
              rw [hmapget] at this
              exact (sampleValD_of_ok _ _ _ this).symm
          rw [hscatter] at hok
          rcases hrec : s.samplesLoop gs (fillFold (fun p => sampleValD tile p.2) vs smp) st1
            with ⟨res2, st2, pr2⟩
          rw [hrec] at hok
          simp only [Prod.mk.injEq] at hok
          obtain ⟨h1, h2, h3⟩ := hok
          rw [h1] at hrec
          have hlt' : ∀ p ∈ ps.filter (fun p => !decide (s.tileCoordFunc p.2 = some k0)),
              p.1 < (fillFold (fun p => sampleValD tile p.2) vs smp).length := by
            intro p hp
            rw [fillFold_length]
            exact hlt p (List.mem_filter.mp hp).1
          obtain ⟨ihlen, ih2, ih3, ih4⟩ := ih _ _ _ _ _ hGO' hnd' hlt' hagree' hrec
          refine ⟨by rw [ihlen, fillFold_length], ?_, ?_, ?_⟩
          · intro p hp tc hkey
            by_cases hx : tc = k0
            · subst hx
              have hpvs : p ∈ vs := by
                rw [hvs]
                exact List.mem_filter.mpr ⟨hp, by simp [hkey]⟩
              have hnotps' : ∀ c, (p.1, c) ∉
                  ps.filter (fun p => !decide (s.tileCoordFunc p.2 = some tc)) := by
                intro c hmem
                have hmemps := List.mem_filter.mp hmem
                have hpair : ((p.1, c) : ℕ × Coord) = p :=
                  nodup_fst_eq ps hnd _ p hmemps.1 hp rfl
                have hflt := hmemps.2
                rw [show ((p.1, c) : ℕ × Coord).2 = p.2 from by rw [hpair]] at hflt
                rw [hkey] at hflt
                simp at hflt
              have hout : out.getD p.1 none = sampleValD tile p.2 := by
                rw [ih4 p.1 hnotps',
                  fillFold_getD_of_mem _ _ _ p hvsfst hpvs (hlt p hp)]
              have hSampleOk : tile.Sample p.2 = .ok (sampleValD tile p.2) := by
                obtain ⟨j, hj, hje⟩ := List.mem_iff_getElem.mp hpvs
                have hj' : j < (vs.map Prod.snd).length := by simpa using hj
                have := hpt j hj'
                have hmapget : (vs.map Prod.snd).get ⟨j, hj'⟩ = p.2 := by
                  simp only [List.get_eq_getElem, List.getElem_map]
                  rw [hje]
                rw [hmapget] at this
                rw [this, sampleValD_of_ok _ _ _ this]
              simp only [GeoTIFFTileSet.evalAt, hkey, hval0]
              rw [hSampleOk, hout]
            · have hp' : p ∈ ps.filter (fun p => !decide (s.tileCoordFunc p.2 = some k0)) :=
                List.mem_filter.mpr ⟨hp, by simp [hkey, hx]⟩
              exact ih2 p hp' tc hkey
          · intro p hp hkey
            have hp' : p ∈ ps.filter (fun p => !decide (s.tileCoordFunc p.2 = some k0)) :=
              List.mem_filter.mpr ⟨hp, by simp [hkey]⟩
            rw [ih3 p hp' hkey]
            apply fillFold_getD_of_not_mem
            intro q hq he
            have hqps : q ∈ ps := by
              rw [hvs] at hq
              exact (List.mem_filter.mp hq).1
            have hqkey : s.tileCoordFunc q.2 = some k0 := by
              rw [hvs] at hq
              simpa using (List.mem_filter.mp hq).2
            have : q = p := nodup_fst_eq ps hnd q p hqps hp he
            rw [this, hkey] at hqkey
            cases hqkey
          · intro i hnot
            have hnot' : ∀ c, (i, c) ∉
                ps.filter (fun p => !decide (s.tileCoordFunc p.2 = some k0)) :=
              fun c hm => hnot c (List.mem_filter.mp hm).1
            rw [ih4 i hnot']
            apply fillFold_getD_of_not_mem
            intro q hq he
            apply hnot q.2
            have hqps : q ∈ ps := by
              rw [hvs] at hq
              exact (List.mem_filter.mp hq).1
            have : ((i, q.2) : ℕ × Coord) = q := by rw [← he]
            rw [this]
            exact hqps

/-- When the batched router `Samples` succeeds, the result has one entry
per coordinate, and each entry is the single-coordinate evaluation from
the call's initial state. -/
theorem tsSamples_ok_pointwise (s : GeoTIFFTileSet) (st : SetState) (coords : List Coord)
    (out : List (Option ℚ)) (stf : SetState) (pr : List TileCoord)
    (hok : s.Samples st coords = (.ok out, stf, pr)) :
    out.length = coords.length ∧
    ∀ i, (h : i < coords.length) → s.evalAt st (coords.get ⟨i, h⟩) = .ok (out.getD i none) := by
  simp only [GeoTIFFTileSet.Samples] at hok
  have hps_nd : ((coords.enum).map Prod.fst).Nodup := enum_fst_nodup coords
  have hGO := groupsOk_samplesScan s.tileCoordFunc coords.enum
    (List.replicate coords.length (some 0))
  have hscanlen : (samplesScan s.tileCoordFunc coords.enum
      (List.replicate coords.length (some 0), [])).1.length = coords.length := by
    rw [samplesScan_fst_length]
    simp
  have hlt : ∀ p ∈ coords.enum, p.1 < (samplesScan s.tileCoordFunc coords.enum
      (List.replicate coords.length (some 0), [])).1.length := by
    intro p hp
    rw [hscanlen]
    have := List.mem_enum_iff_getElem?.mp hp
    obtain ⟨hl, _⟩ := List.getElem?_eq_some_iff.mp this
    exact hl
  have hagree : ∀ g ∈ (samplesScan s.tileCoordFunc coords.enum
      (List.replicate coords.length (some 0), [])).2, SetState.agreeAt st st g.1 :=
    fun g _ => ⟨Iff.rfl, rfl⟩
  obtain ⟨hlen, h2, h3, h4⟩ := tsLoop_ok_spec s _ coords.enum _ out st st stf pr
    hGO hps_nd hlt hagree hok
  refine ⟨by rw [hlen, hscanlen], ?_⟩
  intro i hi
  have hpair : ((i, coords.get ⟨i, hi⟩) : ℕ × Coord) ∈ coords.enum := by
    rw [List.mk_mem_enum_iff_getElem?]
    simp [List.getElem?_eq_getElem hi]
  cases hkey : s.tileCoordFunc (coords.get ⟨i, hi⟩) with
  | some tc =>
    have := h2 _ hpair tc hkey
    exact this
  | none =>
    have hout : out.getD i none = (samplesScan s.tileCoordFunc coords.enum
        (List.replicate coords.length (some 0), [])).1.getD i none := h3 _ hpair hkey
    have hinit : (samplesScan s.tileCoordFunc coords.enum
        (List.replicate coords.length (some 0), [])).1.getD i none = none := by
      apply samplesScan_fst_getD_of_none s.tileCoordFunc coords.enum _ _ i
        (coords.get ⟨i, hi⟩) hpair hkey
      · simpa using hi
      · exact hps_nd
    simp only [GeoTIFFTileSet.evalAt, hkey, hout, hinit]

/-- A single-coordinate router call returns exactly the single-coordinate
evaluation. -/
theorem tsSamples_singleton (s : GeoTIFFTileSet) (st : SetState) (c : Coord) (v : Option ℚ)
    (hv : s.evalAt st c = .ok v) :
    ∃ stf pr, s.Samples st [c] = (.ok [v], stf, pr) := by
  cases hkey : s.tileCoordFunc c with
  | none =>
    have hv' : v = none := by
      simp only [GeoTIFFTileSet.evalAt, hkey, Except.ok.injEq] at hv
      exact hv.symm
    subst hv'
    exact ⟨st, [], by simp [GeoTIFFTileSet.Samples, List.enum, List.enumFrom,
      samplesScan, hkey, GeoTIFFTileSet.samplesLoop]⟩
  | some tc =>
    simp only [GeoTIFFTileSet.evalAt, hkey] at hv
    rcases hres : s.getTileCached st tc with ⟨res, st1, pr1⟩
    rw [hres] at hv
    cases res with
    | error e => exact absurd hv (by simp)
    | ok otile =>
      cases otile with
      | none =>
        have hv' : v = none := by
          simp only [Except.ok.injEq] at hv
          exact hv.symm
        subst hv'
        refine ⟨st1, pr1 ++ [], ?_⟩
        simp [GeoTIFFTileSet.Samples, List.enum, List.enumFrom, samplesScan, hkey,
          GeoTIFFTileSet.samplesLoop, hres, fillFold]
      | some tile =>
        replace hv : tile.Sample c = .ok v := hv
        cases hsmp : tile.Samples [c] with
        | error e =>
          exfalso
          obtain ⟨c', hc', e', he'⟩ := (Samples_error_iff_forSample tile [c]).mp ⟨e, hsmp⟩
          rw [List.mem_singleton] at hc'
          subst hc'
          rw [hv] at he'
          cases he'
        | ok ls =>
          obtain ⟨hlslen, hpt⟩ := Samples_ok_pointwise tile [c] ls hsmp
          have h0 := hpt 0 (by simp)
          simp only [List.get_eq_getElem, List.getElem_singleton] at h0
          rw [hv, Except.ok.injEq] at h0
          obtain ⟨l0, hls⟩ : ∃ l0, ls = [l0] := by
            cases ls with
            | nil => simp at hlslen
            | cons a t =>
              cases t with
              | nil => exact ⟨a, rfl⟩
              | cons b t2 => simp at hlslen
          subst hls
          have hveq : v = l0 := by simpa using h0
          subst hveq
          refine ⟨st1, pr1 ++ [], ?_⟩
          simp [GeoTIFFTileSet.Samples, List.enum, List.enumFrom, samplesScan, hkey,
            GeoTIFFTileSet.samplesLoop, hres, hsmp, scatterFold]

/-- Scattering preserves the length of the result slice. -/
theorem scatterFold_length (idxs : List ℕ) (vals : List (Option ℚ))
    (smp : List (Option ℚ)) : (scatterFold idxs vals smp).length = smp.length := by
  simp only [scatterFold]
  generalize idxs.zip vals = ws
  induction ws generalizing smp with
  | nil => rfl
  | cons q qs ihq =>
    simp only [List.foldl_cons]
    rw [ihq (smp.set q.1 q.2)]
    simp

/-- The router loop either succeeds with a result of unchanged length or
fails with an error and no result. -/
theorem tsLoop_shape (s : GeoTIFFTileSet) (gs : List (TileCoord × List (ℕ × Coord)))
    (smp : List (Option ℚ)) (st : SetState) :
    (∃ out stf pr, s.samplesLoop gs smp st = (.ok out, stf, pr) ∧ out.length = smp.length) ∨
    (∃ e stf pr, s.samplesLoop gs smp st = (.error e, stf, pr)) := by
  induction gs generalizing smp st with
  | nil => exact Or.inl ⟨smp, st, [], rfl, rfl⟩
  | cons g gs ih =>
    rcases hres : s.getTileCached st g.1 with ⟨res, st1, pr1⟩
    cases res with
    | error e =>
      right
      exact ⟨e, st1, pr1, by simp [GeoTIFFTileSet.samplesLoop, hres]⟩
    | ok otile =>
      cases otile with
      | none =>
        rcases ih (fillFold (fun _ => none) g.2 smp) st1 with ⟨out, stf, pr, hok, hlen⟩ | ⟨e, stf, pr, herr⟩
        · left
          refine ⟨out, stf, pr1 ++ pr, ?_, ?_⟩
          · simp [GeoTIFFTileSet.samplesLoop, hres, hok]
          · rw [hlen, fillFold_length]
        · right
          exact ⟨e, stf, pr1 ++ pr, by simp [GeoTIFFTileSet.samplesLoop, hres, herr]⟩
      | some tile =>
        cases hsmp : tile.Samples (g.2.map Prod.snd) with
        | error e =>
          right
          exact ⟨e, st1, pr1, by simp [GeoTIFFTileSet.samplesLoop, hres, hsmp]⟩
        | ok ls =>
          rcases ih (scatterFold (g.2.map Prod.fst) ls smp) st1 with
            ⟨out, stf, pr, hok, hlen⟩ | ⟨e, stf, pr, herr⟩
          · left
            refine ⟨out, stf, pr1 ++ pr, ?_, ?_⟩
            · simp [GeoTIFFTileSet.samplesLoop, hres, hsmp, hok]
            · rw [hlen, scatterFold_length]
          · right
            exact ⟨e, stf, pr1 ++ pr, by simp [GeoTIFFTileSet.samplesLoop, hres, hsmp, herr]⟩

/-- C2: for every coordinate, `GeoTIFFTile.Sample` converts the coordinate
to a local pixel coordinate via the inverse affine mapping given by the
pixel scale and origin; if that pixel lies outside
`[0, imageWidth) x [0, imageLength)` it returns NaN with no error;
otherwise it returns the element of the fetched tile at index
`(localX mod tileWidth) + (localY mod tileLength) * tileWidth`, returning
NaN when that element equals the no-data sentinel and NaN when the tile is
known empty. -/
theorem sample_pipeline_spec (f : GeoTIFFTile) (coord : Coord) :
    f.Sample coord = sampleSpecC2 f coord := by
  by_cases hb : ((coord.X - f.translateX).tdiv f.scaleX < 0 ∨
      f.imageWidth ≤ (coord.X - f.translateX).tdiv f.scaleX ∨
      (f.translateY - coord.Y).tdiv f.scaleY < 0 ∨
      f.imageLength ≤ (f.translateY - coord.Y).tdiv f.scaleY)
  · simp [GeoTIFFTile.Sample, GeoTIFFTile.localCoord, GeoTIFFTile.localTileCoord,
      GeoTIFFTile.tileSample, sampleSpecC2, hb]
  · cases ht : f.tiles ⟨((coord.X - f.translateX).tdiv f.scaleX).tdiv f.tileWidth,
        ((f.translateY - coord.Y).tdiv f.scaleY).tdiv f.tileLength⟩ with
    | error e =>
      simp [GeoTIFFTile.Sample, GeoTIFFTile.localCoord, GeoTIFFTile.localTileCoord,
        GeoTIFFTile.tileSample, sampleSpecC2, hb, ht]
    | ok ts =>
      cases ts with
      | none =>
        simp [GeoTIFFTile.Sample, GeoTIFFTile.localCoord, GeoTIFFTile.localTileCoord,
          GeoTIFFTile.tileSample, sampleSpecC2, hb, ht]
      | some samples =>
        simp only [GeoTIFFTile.Sample, GeoTIFFTile.localCoord, GeoTIFFTile.localTileCoord,
          GeoTIFFTile.tileSample, sampleSpecC2, hb, ht, if_false, neg_sub, if_neg hb]
        split <;> rfl

/-- C10: because the coordinate-to-pixel conversion truncates toward zero,
every native coordinate with `translateX - scaleX < X < translateX` maps
to pixel column 0 and every native coordinate with
`translateY < Y < translateY + scaleY` maps to pixel row 0; for such
out-of-extent coordinates `Sample` returns the corresponding edge pixel's
value (the value at the clamped coordinate) instead of the out-of-bounds
NaN, the bounds test passing whenever the image is nonempty. -/
theorem localCoord_truncation_edge (f : GeoTIFFTile) (X Y : ℤ)
    (hsx : 0 < f.scaleX) (hsy : 0 < f.scaleY)
    (hx1 : f.translateX - f.scaleX < X) (hx2 : X < f.translateX)
    (hy1 : f.translateY < Y) (hy2 : Y < f.translateY + f.scaleY) :
    (∀ Y', (f.localCoord ⟨X, Y'⟩).X = 0 ∧
      f.Sample ⟨X, Y'⟩ = f.Sample ⟨f.translateX, Y'⟩) ∧
    (∀ X', (f.localCoord ⟨X', Y⟩).Y = 0 ∧
      f.Sample ⟨X', Y⟩ = f.Sample ⟨X', f.translateY⟩) ∧
    (0 < f.imageWidth → 0 < f.imageLength →
      (f.localTileCoord (f.localCoord ⟨X, Y⟩)).isSome) := by
  have hX0 : (X - f.translateX).tdiv f.scaleX = 0 := by
    have ha : X - f.translateX = -(f.translateX - X) := by ring
    rw [ha, Int.neg_tdiv, Int.tdiv_eq_zero_of_lt (by omega) (by omega)]
    simp
  have hY0 : (f.translateY - Y).tdiv f.scaleY = 0 := by
    have ha : f.translateY - Y = -(Y - f.translateY) := by ring
    rw [ha, Int.neg_tdiv, Int.tdiv_eq_zero_of_lt (by omega) (by omega)]
    simp
  refine ⟨?_, ?_, ?_⟩
  · intro Y'
    have hcoord : f.localCoord ⟨X, Y'⟩ = f.localCoord ⟨f.translateX, Y'⟩ := by
      simp [GeoTIFFTile.localCoord, hX0]
    refine ⟨by simp [GeoTIFFTile.localCoord, hX0], ?_⟩
    simp only [GeoTIFFTile.Sample, hcoord]
  · intro X'
    have hcoord : f.localCoord ⟨X', Y⟩ = f.localCoord ⟨X', f.translateY⟩ := by
      simp [GeoTIFFTile.localCoord, hY0]
    refine ⟨by simp [GeoTIFFTile.localCoord, hY0], ?_⟩
    simp only [GeoTIFFTile.Sample, hcoord]
  · intro hiw hil
    have hcoord : f.localCoord ⟨X, Y⟩ = ⟨0, 0⟩ := by
      simp [GeoTIFFTile.localCoord, hX0, hY0]
    rw [hcoord]
    simp only [GeoTIFFTile.localTileCoord]
    rw [if_neg (by simp; omega)]
    simp

/-- Witness for C10 at a concrete decoder and the concrete out-of-extent
coordinate (-5, 5). -/
theorem localCoord_truncation_edge_witness :
    (tile10.localCoord ⟨-5, 5⟩).X = 0 ∧
    tile10.Sample ⟨-5, 5⟩ = tile10.Sample ⟨0, 5⟩ ∧
    (tile10.localCoord ⟨-5, 5⟩).Y = 0 ∧
    tile10.Sample ⟨-5, 5⟩ = tile10.Sample ⟨-5, 0⟩ ∧
    (tile10.localTileCoord (tile10.localCoord ⟨-5, 5⟩)).isSome := by
  have h := localCoord_truncation_edge tile10 (-5) 5 (by decide) (by decide)
    (by decide) (by decide) (by decide) (by decide)
  exact ⟨(h.1 5).1, (h.1 5).2, (h.2.1 (-5)).1, (h.2.1 (-5)).2, h.2.2 (by decide) (by decide)⟩

/-- C1: batched and per-coordinate sampling are equivalent.  For the
decoder, a successful `Samples` has one entry per coordinate, each equal
(as `Option ℚ`, where `none` is NaN, so NaN equals NaN) to what `Sample`
returns for that coordinate, and the batched call fails exactly when some
per-coordinate call fails; for the tile-set router, each entry of a
successful batched call equals entry 0 of the singleton batched call on
that coordinate from the same initial state. -/
theorem batched_equals_pointwise_sampling (f : GeoTIFFTile) (coords : List Coord) :
    (∀ out, f.Samples coords = .ok out →
      out.length = coords.length ∧
      ∀ i, (h : i < coords.length) → f.Sample (coords.get ⟨i, h⟩) = .ok (out.getD i none)) ∧
    ((∃ e, f.Samples coords = .error e) ↔ ∃ c ∈ coords, ∃ e, f.Sample c = .error e) ∧
    (∀ (s : GeoTIFFTileSet) (st : SetState) (out : List (Option ℚ)) (stf : SetState)
      (pr : List TileCoord),
      s.Samples st coords = (.ok out, stf, pr) →
      ∀ i, (h : i < coords.length) →
        ∃ out1 stf1 pr1, s.Samples st [coords.get ⟨i, h⟩] = (.ok out1, stf1, pr1) ∧
          out1.getD 0 none = out.getD i none) := by
  refine ⟨fun out hok => Samples_ok_pointwise f coords out hok,
    Samples_error_iff_forSample f coords, ?_⟩
  intro s st out stf pr hok i hi
  obtain ⟨hlen, hpt⟩ := tsSamples_ok_pointwise s st coords out stf pr hok
  obtain ⟨stf1, pr1, hsing⟩ := tsSamples_singleton s st (coords.get ⟨i, hi⟩)
    (out.getD i none) (hpt i hi)
  exact ⟨[out.getD i none], stf1, pr1, hsing, rfl⟩

/-- Witness for C1 at a concrete decoder, router and coordinate batch. -/
theorem batched_equals_pointwise_sampling_witness :
    f0.Samples [(⟨0, 0⟩ : Coord), ⟨1, -1⟩] = .ok [some 1, some 4] ∧
    f0.Sample ⟨0, 0⟩ = .ok (some 1) ∧
    f0.Sample ⟨1, -1⟩ = .ok (some 4) ∧
    (∃ out1 stf1 pr1, s0.Samples stEmpty [(⟨0, 0⟩ : Coord)] = (.ok out1, stf1, pr1) ∧
      out1.getD 0 none = some 1) := by
  have hbatch : f0.Samples [(⟨0, 0⟩ : Coord), ⟨1, -1⟩] = .ok [some 1, some 4] := by decide
  have h := batched_equals_pointwise_sampling f0 [(⟨0, 0⟩ : Coord), ⟨1, -1⟩]
  have h0 := (h.1 [some 1, some 4] hbatch).2 0 (by decide)
  have h1 := (h.1 [some 1, some 4] hbatch).2 1 (by decide)
  have hrfst : (s0.Samples stEmpty [(⟨0, 0⟩ : Coord), ⟨1, -1⟩]).1 = .ok [some 1, some 4] := by
    decide
  have hrok : s0.Samples stEmpty [(⟨0, 0⟩ : Coord), ⟨1, -1⟩] =
      (.ok [some 1, some 4], (s0.Samples stEmpty [(⟨0, 0⟩ : Coord), ⟨1, -1⟩]).2.1,
        (s0.Samples stEmpty [(⟨0, 0⟩ : Coord), ⟨1, -1⟩]).2.2) := by
    rw [← hrfst]
  obtain ⟨out1, stf1, pr1, hsing, hval⟩ :=
    (batched_equals_pointwise_sampling f0 [(⟨0, 0⟩ : Coord), ⟨1, -1⟩]).2.2 s0 stEmpty
      [some 1, some 4] _ _ hrok 0 (by decide)
  refine ⟨hbatch, by simpa using h0, by simpa using h1, out1, stf1, pr1, ?_, ?_⟩
  · simpa using hsing
  · simpa using hval

/-- C7: every batched `Samples` call, decoder or router, is atomic: it
either returns a result with exactly one entry per input coordinate (with
NaN marking no-coverage and no-data positions) or returns an error with no
result; a partially filled result is never returned with an error. -/
theorem batch_atomicity (f : GeoTIFFTile) (coords : List Coord) (s : GeoTIFFTileSet)
    (st : SetState) :
    ((∃ out, f.Samples coords = .ok out ∧ out.length = coords.length) ∨
      (∃ e, f.Samples coords = .error e)) ∧
    ((∃ out stf pr, s.Samples st coords = (.ok out, stf, pr) ∧ out.length = coords.length) ∨
      (∃ e stf pr, s.Samples st coords = (.error e, stf, pr))) := by
  constructor
  · cases hval : f.Samples coords with
    | ok out =>
      exact Or.inl ⟨out, rfl, (Samples_ok_pointwise f coords out hval).1⟩
    | error e => exact Or.inr ⟨e, rfl⟩
  · simp only [GeoTIFFTileSet.Samples]
    rcases tsLoop_shape s (samplesScan s.tileCoordFunc coords.enum
        (List.replicate coords.length (some 0), [])).2
        (samplesScan s.tileCoordFunc coords.enum
        (List.replicate coords.length (some 0), [])).1 st with
      ⟨out, stf, pr, hok, hlen⟩ | ⟨e, stf, pr, herr⟩
    · left
      refine ⟨out, stf, pr, hok, ?_⟩
      rw [hlen, samplesScan_fst_length]
      simp
    · exact Or.inr ⟨e, stf, pr, herr⟩

/-- C4: negative caching of missing backing files.  A first lookup of a
tile coordinate whose backing file does not exist returns NaN (a nil
decoder) without error, records the missing marker, and probes the
filesystem exactly once; a lookup of a marked coordinate returns NaN
without touching state or filesystem; markers survive every batched call;
no batched call ever probes a marked coordinate's backing file again; and
in a successful batched call every coordinate whose backing tile resolves
to no decoder receives NaN. -/
theorem missing_file_negative_caching (s : GeoTIFFTileSet) (st : SetState) (tc : TileCoord) :
    (tc ∉ st.missingTiles → cacheGet st.geoTIFFTileCache tc = none →
      s.newTile (s.tileFilenameFunc tc) = .error .notExist →
      s.getTileCached st tc =
        (.ok none, ⟨tc :: st.missingTiles, (tc, none) :: st.geoTIFFTileCache⟩, [tc]) ∧
      tc ∈ ((s.getTileCached st tc).2.1).missingTiles) ∧
    (tc ∈ st.missingTiles → s.getTileCached st tc = (.ok none, st, [])) ∧
    (∀ coords, tc ∈ st.missingTiles →
      tc ∈ ((s.Samples st coords).2.1).missingTiles) ∧
    (∀ coords, tc ∈ st.missingTiles → tc ∉ (s.Samples st coords).2.2) ∧
    (∀ coords (out : List (Option ℚ)) (stf : SetState) (pr : List TileCoord),
      s.Samples st coords = (.ok out, stf, pr) →
      ∀ i, (h : i < coords.length) → s.tileCoordFunc (coords.get ⟨i, h⟩) = some tc →
      (s.getTileCached st tc).1 = .ok none →
      out.getD i none = none) := by
  refine ⟨?_, ?_, ?_, ?_, ?_⟩
  · intro h1 h2 h3
    have hred : s.getTileCached st tc =
        (.ok none, ⟨tc :: st.missingTiles, (tc, none) :: st.geoTIFFTileCache⟩, [tc]) := by
      simp [GeoTIFFTileSet.getTileCached, h1, h2, h3]
    refine ⟨hred, ?_⟩
    rw [hred]
    exact List.mem_cons_self _ _
  · exact getTileCached_of_missing s st tc
  · intro coords h
    simp only [GeoTIFFTileSet.Samples]
    exact tsLoop_missing_mono s _ _ st tc h
  · intro coords h
    simp only [GeoTIFFTileSet.Samples]
    exact tsLoop_no_probe_of_missing s _ _ st tc h
  · intro coords out stf pr hok i hi hkey hnil
    have := (tsSamples_ok_pointwise s st coords out stf pr hok).2 i hi
    simp only [GeoTIFFTileSet.evalAt, hkey, hnil, Except.ok.injEq] at this
    exact this.symm

/-- Witness for C4 at a concrete router whose backing files never exist. -/
theorem missing_file_negative_caching_witness :
    s1.getTileCached stEmpty ⟨0, 0⟩ = (.ok none, stMarked, [⟨0, 0⟩]) ∧
    s1.getTileCached stMarked ⟨0, 0⟩ = (.ok none, stMarked, []) ∧
    (⟨0, 0⟩ : TileCoord) ∈ ((s1.Samples stMarked [⟨0, 0⟩]).2.1).missingTiles ∧
    (⟨0, 0⟩ : TileCoord) ∉ (s1.Samples stMarked [⟨0, 0⟩]).2.2 ∧
    (s1.Samples stMarked [⟨0, 0⟩]).1 = .ok [none] := by
  have h := missing_file_negative_caching s1 stEmpty ⟨0, 0⟩
  have hm := missing_file_negative_caching s1 stMarked ⟨0, 0⟩
  have hfirst := (h.1 (by decide) rfl rfl).1
  have hmem : (⟨0, 0⟩ : TileCoord) ∈ stMarked.missingTiles := by decide
  have hfst : (s1.Samples stMarked [(⟨0, 0⟩ : Coord)]).1 = .ok [none] := by decide
  have hok : s1.Samples stMarked [(⟨0, 0⟩ : Coord)] =
      (.ok [none], (s1.Samples stMarked [(⟨0, 0⟩ : Coord)]).2.1,
        (s1.Samples stMarked [(⟨0, 0⟩ : Coord)]).2.2) := by
    rw [← hfst]
  have hnan := hm.2.2.2.2 [⟨0, 0⟩] [none] _ _ hok 0 (by decide) rfl
    (by rw [hm.2.1 hmem])
  exact ⟨hfirst, hm.2.1 hmem, hm.2.2.1 [⟨0, 0⟩] hmem, hm.2.2.2.1 [⟨0, 0⟩] hmem, hfst⟩

/-- C5 counterexample: the claim requires a malformed-file error whenever
the tile-table length disagrees with the tile grid, but on a file whose
IFD also has bits-per-sample 16 (and a wrong table length) the code
returns the unsupported-format error, because the tag-level profile
checks run first. -/
theorem open_validation_counterexample :
    (newGeoTIFFTile (envFor badIFD) "f").result = .error .unsupported ∧
    (newGeoTIFFTile (envFor badIFD) "f").result ≠ .error .badTileTables := by
  decide

/-- C5 (amended): once the file opens as an `*os.File`, parses to exactly
one IFD, and unmarshals, `NewGeoTIFFTile` fails with the
unsupported-format error whenever a tag-level profile check fails
(bits-per-sample not 32, wrong compression, photometric interpretation,
samples-per-pixel, planar configuration, predictor, sample format,
mis-shaped or nonzero-third-component pixel-scale or tiepoint vectors, or
a no-data text different from the fixed sentinel); it fails with the
malformed-file error whenever those tag-level checks pass and the tile
offset or byte-count table length differs from
`ceil(imageWidth/tileWidth) * ceil(imageLength/tileLength)`; and it fails
with the unsupported-format error whenever the tag-level checks and the
table-length check pass but the pixel scale or origin is non-integral or
the tiepoint is nonzero.  In every failure case the opened file is closed
and no raster state is returned. -/
theorem open_validation_amended (env : OpenEnv) (filename : String) (content : ℕ)
    (ifds : List ℕ) (ifd : GeoTIFFIFD)
    (hopen : env.openFile filename = .ok (FileHandle.osFile content))
    (hparse : env.parseIFDs content = .ok ifds)
    (hlen : ifds.length = 1)
    (hunm : env.unmarshalIFD (ifds.getD 0 0) = .ok ifd) :
    (tagLevelUnsupported ifd → newGeoTIFFTile env filename = ⟨.error .unsupported, true⟩) ∧
    (¬tagLevelUnsupported ifd → tableLengthWrong ifd →
      newGeoTIFFTile env filename = ⟨.error .badTileTables, true⟩) ∧
    (¬tagLevelUnsupported ifd → ¬tableLengthWrong ifd → valueLevelUnsupported ifd →
      newGeoTIFFTile env filename = ⟨.error .unsupported, true⟩) := by
  obtain ⟨tok, rfl⟩ : ∃ t, ifds = [t] := by
    cases ifds with
    | nil => simp at hlen
    | cons a t =>
      cases t with
      | nil => exact ⟨a, rfl⟩
      | cons b t2 => simp at hlen
  simp only [List.getD_cons_zero] at hunm
  refine ⟨?_, ?_, ?_⟩
  · intro htag
    simp [newGeoTIFFTile, hopen, hparse, hlen, hunm, htag]
  · intro htag htab
    simp [newGeoTIFFTile, hopen, hparse, hlen, hunm, htag, htab]
  · intro htag htab hval
    rcases hval with hv1 | hv2 | hv3
    · simp only [List.getD_eq_getElem?_getD] at hv1
      simp [newGeoTIFFTile, hopen, hparse, hlen, hunm, htag, htab, hv1]
    · by_cases hv1 : (¬((ratTrunc (ifd.modelPixelScaleTag.getD 0 0) : ℚ) =
          ifd.modelPixelScaleTag.getD 0 0) ∨
        ¬((ratTrunc (ifd.modelPixelScaleTag.getD 1 0) : ℚ) = ifd.modelPixelScaleTag.getD 1 0) ∨
        ifd.modelPixelScaleTag.getD 2 0 ≠ 0)
      · simp only [List.getD_eq_getElem?_getD] at hv1
        simp [newGeoTIFFTile, hopen, hparse, hlen, hunm, htag, htab, hv1]
      · simp only [List.getD_eq_getElem?_getD] at hv1 hv2
        simp [newGeoTIFFTile, hopen, hparse, hlen, hunm, htag, htab, hv1, hv2]
    · by_cases hv1 : (¬((ratTrunc (ifd.modelPixelScaleTag.getD 0 0) : ℚ) =
          ifd.modelPixelScaleTag.getD 0 0) ∨
        ¬((ratTrunc (ifd.modelPixelScaleTag.getD 1 0) : ℚ) = ifd.modelPixelScaleTag.getD 1 0) ∨
        ifd.modelPixelScaleTag.getD 2 0 ≠ 0)
      · simp only [List.getD_eq_getElem?_getD] at hv1
        simp [newGeoTIFFTile, hopen, hparse, hlen, hunm, htag, htab, hv1]
      · by_cases hv2 : (ifd.modelTiepointTag.getD 0 0 ≠ 0 ∨ ifd.modelTiepointTag.getD 1 0 ≠ 0 ∨
            ifd.modelTiepointTag.getD 2 0 ≠ 0)
        · simp only [List.getD_eq_getElem?_getD] at hv1 hv2
          simp [newGeoTIFFTile, hopen, hparse, hlen, hunm, htag, htab, hv1, hv2]
        · simp only [List.getD_eq_getElem?_getD] at hv1 hv2 hv3
          simp [newGeoTIFFTile, hopen, hparse, hlen, hunm, htag, htab, hv1, hv2, hv3]

/-- Witness for C5 (amended) at three concrete IFDs: a tag-level
violation, a table-length violation with conforming tags, and a
non-integral pixel scale with conforming tags and tables. -/
theorem open_validation_amended_witness :
    newGeoTIFFTile (envFor badIFD) "f" = ⟨.error .unsupported, true⟩ ∧
    newGeoTIFFTile (envFor badTableIFD) "f" = ⟨.error .badTileTables, true⟩ ∧
    newGeoTIFFTile (envFor badScaleIFD) "f" = ⟨.error .unsupported, true⟩ := by
  refine ⟨(open_validation_amended (envFor badIFD) "f" 0 [0] badIFD rfl rfl rfl rfl).1
      (by decide),
    (open_validation_amended (envFor badTableIFD) "f" 0 [0] badTableIFD rfl rfl rfl rfl).2.1
      (by decide) (by decide),
    (open_validation_amended (envFor badScaleIFD) "f" 0 [0] badScaleIFD rfl rfl rfl rfl).2.2
      (by decide) (by decide) ?_⟩
  left
  left
  intro h
  have : ratTrunc ((1 : ℚ)/2) = 0 := by
    rw [ratTrunc, if_pos (by norm_num)]
    norm_num
  rw [show badScaleIFD.modelPixelScaleTag.getD 0 0 = (1 : ℚ)/2 from rfl, this] at h
  norm_num at h

/-- C9: whenever the abstract filesystem's `Open` succeeds but returns a
handle that is not an `*os.File`, `NewGeoTIFFTile` fails with
`errors.ErrUnsupported` regardless of the file's contents and of the
parser's behavior, and returns without closing that handle (the early
return precedes the close-on-failure defer). -/
theorem non_os_file_unsupported (env : OpenEnv) (filename : String) (content : ℕ)
    (h : env.openFile filename = .ok (FileHandle.otherFile content)) :
    newGeoTIFFTile env filename = ⟨.error .unsupported, false⟩ := by
  simp [newGeoTIFFTile, h]

/-- Witness for C9 at a concrete non-OS-file environment. -/
theorem non_os_file_unsupported_witness :
    newGeoTIFFTile envOther "f" = ⟨.error .unsupported, false⟩ :=
  non_os_file_unsupported envOther "f" 0 rfl

/-- `getTileSamples` either leaves the decoder state unchanged, or it
learns the empty-tile signature: no signature was known, the fetched
compressed data's length equals the smallest recorded byte count, every
decoded sample is the no-data sentinel, and the call reports the tile
empty after exactly one decompression, writing only `emptyTileBytes`. -/
theorem getTileSamples_state (env : DecEnv) (st : DecState) (tc : TileCoord) :
    (getTileSamples env st tc).2.1 = st ∨
    (st.emptyTileBytes = none ∧ ∃ data samples,
      getCompressedTileData env st tc = .ok (some data) ∧
      env.decompressDecode data = .ok samples ∧
      data.length = env.smallestTileByteCount ∧
      (∀ s ∈ samples, s = noData) ∧
      getTileSamples env st tc =
        (.ok none, { st with emptyTileBytes := some data }, 1)) := by
  rcases hf : getCompressedTileData env st tc with e | od
  · left
    simp [getTileSamples, hf]
  · rcases od with _ | data
    · left
      simp [getTileSamples, hf]
    · rcases hd : env.decompressDecode data with e | samples
      · left
        simp [getTileSamples, hf, hd]
      · by_cases hc : st.emptyTileBytes = none ∧
            data.length = env.smallestTileByteCount
        · by_cases hall : ∀ s ∈ samples, s = noData
          · right
            refine ⟨hc.1, data, samples, rfl, hd, hc.2, hall, ?_⟩
            simp [getTileSamples, hf, hd, hc.1, hc.2, hall]
            exact hall
          · left
            simp [getTileSamples, hf, hd, hc, hall]
        · left
          simp [getTileSamples, hf, hd, hc]

/-- C6: per decoder, the empty-tile signature is written at most once
and is immutable thereafter (a known signature survives any
`getTileSamplesCached` call); it is recorded exactly when no signature
is yet known, the fetched tile's compressed byte length equals the
file-wide smallest recorded tile byte count, and every decoded sample
equals the no-data sentinel — such a tile is reported empty, recorded in
`emptyTiles`, and its decoded array is discarded rather than inserted
into the bounded tile cache, at the cost of one decompression; and once
a signature is known, a tile whose compressed bytes equal the signature
byte-for-byte is reported empty with zero decompressions. -/
theorem empty_tile_signature_invariants (env : DecEnv) (st : DecState)
    (tc : TileCoord) :
    (∀ sig, st.emptyTileBytes = some sig →
      (getTileSamplesCached env st tc).2.1.emptyTileBytes = some sig) ∧
    (∀ data samples,
      tc ∉ st.emptyTiles →
      decCacheGet st.tileCache tc = none →
      st.emptyTileBytes = none →
      getCompressedTileData env st tc = .ok (some data) →
      env.decompressDecode data = .ok samples →
      data.length = env.smallestTileByteCount →
      (∀ s ∈ samples, s = noData) →
      getTileSamplesCached env st tc =
        (.ok none, ⟨some data, tc :: st.emptyTiles, st.tileCache⟩, 1)) ∧
    ((getTileSamplesCached env st tc).2.1.emptyTileBytes ≠ st.emptyTileBytes →
      st.emptyTileBytes = none ∧ tc ∉ st.emptyTiles ∧
      decCacheGet st.tileCache tc = none ∧
      ∃ data samples,
        getCompressedTileData env st tc = .ok (some data) ∧
        env.decompressDecode data = .ok samples ∧
        data.length = env.smallestTileByteCount ∧
        (∀ s ∈ samples, s = noData) ∧
        getTileSamplesCached env st tc =
          (.ok none, ⟨some data, tc :: st.emptyTiles, st.tileCache⟩, 1)) ∧
    (∀ bytes,
      tc ∉ st.emptyTiles →
      decCacheGet st.tileCache tc = none →
      st.emptyTileBytes = some bytes →
      env.readAt
          (env.tileByteCounts.getD (tc.C + env.tilesAcross * tc.R).toNat 0)
          (env.tileOffsets.getD (tc.C + env.tilesAcross * tc.R).toNat 0) =
        .ok bytes →
      bytes.length =
        env.tileByteCounts.getD (tc.C + env.tilesAcross * tc.R).toNat 0 →
      getTileSamplesCached env st tc =
        (.ok none, ⟨some bytes, tc :: st.emptyTiles, st.tileCache⟩, 0)) := by
  refine ⟨?_, ?_, ?_, ?_⟩
  · intro sig hsig
    by_cases hmem : tc ∈ st.emptyTiles
    · simp [getTileSamplesCached, hmem, hsig]
    · rcases hcg : decCacheGet st.tileCache tc with _ | ts
      · rcases getTileSamples_state env st tc with h1 | ⟨hnone, _⟩
        · rcases hr : getTileSamples env st tc with ⟨res, st1, n⟩
          have hst1 : st1 = st := by rw [hr] at h1; exact h1
          cases res with
          | error e => simp [getTileSamplesCached, hmem, hcg, hr, hst1, hsig]
          | ok o =>
            cases o <;> simp [getTileSamplesCached, hmem, hcg, hr, hst1, hsig]
        · rw [hnone] at hsig
          simp at hsig
      · simp [getTileSamplesCached, hmem, hcg, hsig]
  · intro data samples hmem hcg hnone hfetch hdec hlen hall
    have hgts : getTileSamples env st tc =
        (.ok none, { st with emptyTileBytes := some data }, 1) := by
      simp [getTileSamples, hfetch, hdec, hnone, hlen, hall]
      exact hall
    simp [getTileSamplesCached, hmem, hcg, hgts]
  · intro hchange
    by_cases hmem : tc ∈ st.emptyTiles
    · exact absurd (by simp [getTileSamplesCached, hmem]) hchange
    · rcases hcg : decCacheGet st.tileCache tc with _ | ts
      · rcases getTileSamples_state env st tc with h1 |
          ⟨hnone, data, samples, hfetch, hdec, hlen, hall, hgts⟩
        · exfalso
          apply hchange
          rcases hr : getTileSamples env st tc with ⟨res, st1, n⟩
          have hst1 : st1 = st := by rw [hr] at h1; exact h1
          cases res with
          | error e => simp [getTileSamplesCached, hmem, hcg, hr, hst1]
          | ok o =>
            cases o <;> simp [getTileSamplesCached, hmem, hcg, hr, hst1]
        · refine ⟨hnone, hmem, rfl, data, samples, hfetch, hdec, hlen, hall, ?_⟩
          simp [getTileSamplesCached, hmem, hcg, hgts]
      · exact absurd (by simp [getTileSamplesCached, hmem, hcg]) hchange
  · intro bytes hmem hcg hsig hread hblen
    have hfetch : getCompressedTileData env st tc = .ok none := by
      simp only [List.getD_eq_getElem?_getD] at hread hblen
      simp [getCompressedTileData, hread, hblen, hsig]
    have hgts : getTileSamples env st tc = (.ok none, st, 0) := by
      simp [getTileSamples, hfetch]
    simp [getTileSamplesCached, hmem, hcg, hgts, hsig]

/-- Witness for C6 on the concrete 2x1 environment: from a fresh state
the tile at column 0 learns the signature `[7, 7]` after one
decompression (reported empty, tile cache untouched), and from the
learned state the tile at column 1, whose bytes match the signature, is
reported empty with zero decompressions. -/
theorem empty_tile_signature_invariants_witness :
    getTileSamplesCached envEmptyTiles dstEmpty ⟨0, 0⟩ =
      (.ok none, ⟨some [7, 7], [⟨0, 0⟩], []⟩, 1) ∧
    getTileSamplesCached envEmptyTiles dstSig ⟨1, 0⟩ =
      (.ok none, ⟨some [7, 7], [⟨1, 0⟩, ⟨0, 0⟩], []⟩, 0) := by
  constructor
  · exact (empty_tile_signature_invariants envEmptyTiles dstEmpty ⟨0, 0⟩).2.1
      [7, 7] [noData, noData] (by simp [dstEmpty]) rfl rfl rfl rfl rfl
      (by simp)
  · exact (empty_tile_signature_invariants envEmptyTiles dstSig ⟨1, 0⟩).2.2.2
      [7, 7] (by decide) rfl rfl rfl rfl
